import Mathlib

/-!
Shallow embedding of the pricing canonicalization-and-reconciliation core of
contract_loader.py.

Modelling conventions:
* Python Decimal values are exact rationals.  The source sets a
  28-significant-digit context; every concrete value appearing below stays far
  inside that precision, where context rounding is the identity, so the
  context is not modelled.  A rational has no signed zero, so the Decimal
  value -0 renders as "0" rather than "-0"; both parse back to the same value.
* Python strings are Lean strings; helper functions mirror str.strip, str.split
  and friends on the character list.
* A CSV row (dict of cells) is a function from column name to optional cell
  text; remote-ledger lookups are explicit inputs and remote calls are
  explicit outputs (an action trace), since transport is out of scope.
-/

namespace ContractLoader

/-- TIER_INCREMENT = Decimal("0.0000000001") (contract_loader.py line 21);
PRICING_DECIMAL_PLACES is the same value used as a quantization step. -/
def TIER_INCREMENT : ℚ := 1 / 10 ^ 10

/-- UNLIMITED_TIER_SENTINEL = Decimal("-1") (line 23). -/
def UNLIMITED_TIER_SENTINEL : ℚ := -1

/-- Whitespace test behind Python str.strip() (ASCII subset; the data never
carries exotic Unicode whitespace). -/
def pyIsSpace (c : Char) : Bool :=
  c = ' ' || c = '\t' || c = '\n' || c = '\r' || c = '\x0b' || c = '\x0c'

/-- Drops the trailing characters satisfying p (Python str.rstrip). -/
def dropTrailing (p : Char → Bool) (l : List Char) : List Char :=
  (l.reverse.dropWhile p).reverse

/-- Python str.strip() on a character list. -/
def pyStripL (l : List Char) : List Char :=
  dropTrailing pyIsSpace (l.dropWhile pyIsSpace)

/-- Python str.strip() on a string. -/
def pyStrip (s : String) : String := (pyStripL s.toList).asString

/-- Numeric value of one decimal digit character (0 for non-digits, which
every caller rules out). -/
def digitVal (c : Char) : ℕ :=
  if c = '0' then 0 else if c = '1' then 1 else if c = '2' then 2
  else if c = '3' then 3 else if c = '4' then 4 else if c = '5' then 5
  else if c = '6' then 6 else if c = '7' then 7 else if c = '8' then 8 else 9

/-- Value of a list of decimal digit characters, most significant first. -/
def digitsToNat (l : List Char) : ℕ := l.foldl (fun a c => 10 * a + digitVal c) 0

/-- Python str.split(sep) for a one-character separator: splitting the empty
string yields one empty part, and every separator occurrence starts a new
part. -/
def splitOnChar (c : Char) : List Char → List (List Char)
  | [] => [[]]
  | a :: rest =>
    if a = c then [] :: splitOnChar c rest
    else
      match splitOnChar c rest with
      | h :: t => (a :: h) :: t
      | [] => [[a]]

/-- Parses the plain decimal grammar digits ['.' digits] (either digit block
may be empty but not both) accepted by the Decimal constructor on the strings
this program produces and consumes; the constructor's exponent, underscore
and NaN forms are not modelled (no claim and no produced string uses them).
none models the constructor raising. -/
def parseDecimalCore? (l : List Char) : Option ℚ :=
  match splitOnChar '.' l with
  | [ip] => if ip ≠ [] && ip.all Char.isDigit then some (digitsToNat ip) else none
  | [ip, fp] =>
      if (ip ++ fp) ≠ [] && ip.all Char.isDigit && fp.all Char.isDigit then
        some ((digitsToNat ip : ℚ) + (digitsToNat fp : ℚ) / 10 ^ fp.length)
      else none
  | _ => none

/-- Decimal(s) with an optional leading sign. -/
def pyParseDecimal? (s : String) : Option ℚ :=
  match s.toList with
  | [] => none
  | c :: rest =>
    if c = '-' then (parseDecimalCore? rest).map (fun q => -q)
    else if c = '+' then parseDecimalCore? rest
    else parseDecimalCore? (c :: rest)

/-- Decimal digit character of one digit value. -/
def digitChar (n : ℕ) : Char :=
  if n = 0 then '0' else if n = 1 then '1' else if n = 2 then '2'
  else if n = 3 then '3' else if n = 4 then '4' else if n = 5 then '5'
  else if n = 6 then '6' else if n = 7 then '7' else if n = 8 then '8' else '9'

/-- Fuel-driven digit rendering; the fuel only bounds the recursion depth and
never runs out when it starts at n. -/
def natToDigitsAux : ℕ → ℕ → List Char
  | 0, n => [digitChar (n % 10)]
  | fuel + 1, n =>
    if n < 10 then [digitChar n]
    else natToDigitsAux fuel (n / 10) ++ [digitChar (n % 10)]

/-- Decimal digit characters of n, most significant first (Python str of a
nonnegative int). -/
def natToDigits (n : ℕ) : List Char := natToDigitsAux n n

/-- Python str of an int. -/
def intToDigits (z : ℤ) : List Char :=
  if z < 0 then '-' :: natToDigits z.natAbs else natToDigits z.natAbs

/-- Bankers rounding of x to an integer: ROUND_HALF_EVEN, the default Decimal
context rounding used by quantize in the source. -/
def roundHalfEven (x : ℚ) : ℤ :=
  let f := ⌊x⌋
  if x < f + 1 / 2 then f
  else if f + 1 / 2 < x then f + 1
  else if f % 2 = 0 then f else f + 1

/-- value.quantize(PRICING_DECIMAL_PLACES): rounds to 10 fractional digits. -/
def quantize10 (v : ℚ) : ℚ := (roundHalfEven (v * 10 ^ 10) : ℚ) / 10 ^ 10

/-- Fixed-point rendering f"{x:.10f}" of x = q * 10^-10, given the scaled
integer q: sign, integer digits, a dot, exactly ten fraction digits. -/
def renderScaled10 (q : ℤ) : List Char :=
  let sign : List Char := if q < 0 then ['-'] else []
  let n := q.natAbs
  let fpDigits := natToDigits (n % 10 ^ 10)
  sign ++ natToDigits (n / 10 ^ 10) ++
    '.' :: (List.replicate (10 - fpDigits.length) '0' ++ fpDigits)

/-- format_decimal (contract_loader.py lines 316-321): integral values render
with no fractional part, otherwise quantize to ten fractional digits, strip
trailing zeros then a trailing dot, falling back to "0". -/
def format_decimal (v : ℚ) : String :=
  if v.den = 1 then (intToDigits v.num).asString
  else
    let text := dropTrailing (fun c => c = '.')
      (dropTrailing (fun c => c = '0') (renderScaled10 (roundHalfEven (v * 10 ^ 10))))
    if text = [] then "0" else text.asString

/-- Python datetime.date with its Gregorian fields. -/
structure PyDate where
  year : ℕ
  month : ℕ
  day : ℕ
deriving DecidableEq, Repr

/-- Gregorian leap-year rule, as datetime implements it. -/
def isLeapYear (y : ℕ) : Bool := y % 4 = 0 && (y % 100 ≠ 0 || y % 400 = 0)

/-- Length of a month in a given year. -/
def daysInMonth (y m : ℕ) : ℕ :=
  if m = 2 then (if isLeapYear y then 29 else 28)
  else if m = 4 || m = 6 || m = 9 || m = 11 then 30
  else 31

/-- date comparison: lexicographic on (year, month, day). -/
def dateLE (a b : PyDate) : Bool :=
  a.year < b.year ||
    (a.year = b.year && (a.month < b.month || (a.month = b.month && a.day ≤ b.day)))

/-- Strict date comparison. -/
def dateLT (a b : PyDate) : Bool := !dateLE b a

/-- someday - timedelta(days=1). -/
def predDay (d : PyDate) : PyDate :=
  if 1 < d.day then ⟨d.year, d.month, d.day - 1⟩
  else if 1 < d.month then ⟨d.year, d.month - 1, daysInMonth d.year (d.month - 1)⟩
  else ⟨d.year - 1, 12, 31⟩

/-- Pads a digit list on the left with zeros to width w. -/
def padLeftZeros (w : ℕ) (l : List Char) : List Char := List.replicate (w - l.length) '0' ++ l

/-- date.isoformat(). -/
def isoDate (d : PyDate) : String :=
  (padLeftZeros 4 (natToDigits d.year) ++
    '-' :: padLeftZeros 2 (natToDigits d.month) ++
    '-' :: padLeftZeros 2 (natToDigits d.day)).asString

/-- f"{d.isoformat()}T00:00:00.000Z", the timestamp shape used for payloads. -/
def isoMidnight (d : PyDate) : String := isoDate d ++ "T00:00:00.000Z"

/-- strptime(text, "%Y-%m-%d").date() on the inputs the program feeds it:
four-digit year, one- or two-digit month and day in range; invalid input is a
ValueError, modelled as none. -/
def strptimeYmd? (s : String) : Option PyDate :=
  match splitOnChar '-' s.toList with
  | [ys, ms, ds] =>
      if ys.length = 4 && ms ≠ [] && ms.length ≤ 2 && ds ≠ [] && ds.length ≤ 2 &&
         ys.all Char.isDigit && ms.all Char.isDigit && ds.all Char.isDigit then
        let y := digitsToNat ys
        let m := digitsToNat ms
        let d := digitsToNat ds
        if 1 ≤ m && m ≤ 12 && 1 ≤ d && d ≤ daysInMonth y m then some ⟨y, m, d⟩ else none
      else none
  | _ => none

/-- parse_date (lines 256-262); date.today() is an explicit parameter. -/
def parse_date (value : Option String) (fallback : Option PyDate) (today : PyDate) : PyDate :=
  match value with
  | some s =>
      if s ≠ "" then
        match strptimeYmd? s with
        | some d => d
        | none => fallback.getD today
      else fallback.getD today
  | none => fallback.getD today

/-- parse_optional_date (lines 265-272). -/
def parse_optional_date (value : Option String) : Option PyDate :=
  match value with
  | some s => if s ≠ "" then strptimeYmd? s else none
  | none => none

/-- parse_iso_to_date (lines 275-285): the text before the first T, stripped,
parsed as %Y-%m-%d. -/
def parse_iso_to_date (value : Option String) : Option PyDate :=
  match value with
  | some s =>
      if s ≠ "" then
        let text := pyStripL (s.toList.takeWhile (fun c => c ≠ 'T'))
        if text = [] then none else strptimeYmd? text.asString
      else none
  | none => none

/-- Python a or b on optional strings: None and "" are falsy. -/
def pyOr (a b : Option String) : Option String :=
  match a with
  | some s => if s = "" then b else some s
  | none => b

/-- Python truthiness of an optional string, as an optional non-empty string. -/
def pyTruthy (o : Option String) : Option String :=
  o.bind (fun s => if s = "" then none else some s)

/-- CSV row: column name to optional cell text (dict row with .get). -/
def Row : Type := String → Option String

/-- (row.get(key) or "").strip(), the cell access of the structured parser. -/
def cell (row : Row) (k : String) : String := pyStrip ((row k).getD "")

/-- Canonical tier: explicit lower bound, optional upper bound (none means
unlimited), unit rate.  The structured parser always populates the lower
bound, so this is also the shape of its raw output. -/
structure Tier where
  lower : ℚ
  upper : Option ℚ
  rate : ℚ
deriving DecidableEq, Repr

/-- Raw legacy tier: implicit lower bound, optional upper, rate. -/
structure LegacyTier where
  upper : Option ℚ
  rate : ℚ
deriving DecidableEq, Repr

/-- Column name of a numbered tier slot cell, f"tier{index}{suffix}". -/
def tierKey (i : ℕ) (suffix : String) : String := "tier" ++ toString i ++ suffix

/-- Outcome of one numbered slot of the structured-parser loop: skipped
because all three cells are empty (continue), aborted (break, keeping the
tiers accumulated so far), a final unlimited tier (append then break), or a
bounded tier to append before continuing with its upper as the new state. -/
inductive SlotOutcome where
  | emptySlot : SlotOutcome
  | abort : SlotOutcome
  | last (t : Tier) : SlotOutcome
  | cont (t : Tier) (u : ℚ) : SlotOutcome
deriving DecidableEq, Repr

/-- Parse of the from-quantity cell of slot i: some (some q) when the cell
has content that parses, some none when the cell is empty (the lower bound is
then derived), none when present but unparsable (break). -/
def lowerCellParsed (row : Row) (i : ℕ) : Option (Option ℚ) :=
  if cell row (tierKey i "_from_qty") ≠ "" then
    (pyParseDecimal? (cell row (tierKey i "_from_qty"))).map some
  else some none

/-- Parse of the to-quantity cell of slot i, with the same encoding as
lowerCellParsed. -/
def upperCellParsed (row : Row) (i : ℕ) : Option (Option ℚ) :=
  if cell row (tierKey i "_to_qty") ≠ "" then
    (pyParseDecimal? (cell row (tierKey i "_to_qty"))).map some
  else some none

/-- Lower bound of lines 384-404: an explicit from-quantity is kept as parsed
(a chaining mismatch is only logged); an absent one chains from the previous
upper plus TIER_INCREMENT — re-quantized when that differs — or is 0 for the
first tier. -/
def slotLower (lowerParsed? : Option ℚ) (previousUpper : Option ℚ) : ℚ :=
  match lowerParsed? with
  | some lv => lv
  | none =>
    match previousUpper with
    | none => 0
    | some pu =>
      if pu + TIER_INCREMENT ≠ quantize10 (pu + TIER_INCREMENT) then
        quantize10 (pu + TIER_INCREMENT)
      else pu + TIER_INCREMENT

/-- Body of one iteration of parse_structured_pricing_tiers (lines 356-434)
for slot i, given the previous bounded upper. -/
def slotStep (row : Row) (i : ℕ) (previousUpper : Option ℚ) : SlotOutcome :=
  let lowerRaw := cell row (tierKey i "_from_qty")
  let upperRaw := cell row (tierKey i "_to_qty")
  let rateRaw := cell row (tierKey i "_rate")
  if lowerRaw = "" && upperRaw = "" && rateRaw = "" then SlotOutcome.emptySlot
  else if rateRaw = "" then SlotOutcome.abort
  else
    match pyParseDecimal? rateRaw with
    | none => SlotOutcome.abort
    | some rateValue =>
      match lowerCellParsed row i with
      | none => SlotOutcome.abort
      | some lowerParsed? =>
        let lowerValue := slotLower lowerParsed? previousUpper
        match upperCellParsed row i with
        | none => SlotOutcome.abort
        | some upperParsed? =>
          match (match upperParsed? with
                 | some uv => if uv = UNLIMITED_TIER_SENTINEL then none else some uv
                 | none => none) with
          | some uv =>
            if uv < lowerValue then SlotOutcome.abort
            else SlotOutcome.cont ⟨lowerValue, some uv, rateValue⟩ uv
          | none => SlotOutcome.last ⟨lowerValue, none, rateValue⟩

/-- Loop of parse_structured_pricing_tiers over the remaining slot indices,
threading the previous bounded upper; the Bool is the seen_any flag. -/
def structSlots (row : Row) : List ℕ → Option ℚ → List Tier × Bool
  | [], _ => ([], false)
  | i :: rest, previousUpper =>
    match slotStep row i previousUpper with
    | SlotOutcome.emptySlot => structSlots row rest previousUpper
    | SlotOutcome.abort => ([], true)
    | SlotOutcome.last t => ([t], true)
    | SlotOutcome.cont t u => (t :: (structSlots row rest (some u)).1, true)

/-- parse_structured_pricing_tiers (lines 352-443): iterates slots 1..maxTiers
(12 by default at every call site); if no slot had any content the result is
the empty ladder.  The final bounded-last-tier check only logs. -/
def parse_structured_pricing_tiers (row : Row) (maxTiers : ℕ) : List Tier :=
  let r := structSlots row (List.range' 1 maxTiers) none
  if !r.2 then [] else r.1

/-- One upper:rate pair of parse_legacy_pricing_tiers (lines 328-348): strip,
require a colon, split once, strip both parts; the literal string "-1" (only)
is the unlimited upper; an unparsable upper or rate skips just this pair. -/
def legacyPair? (part : List Char) : Option LegacyTier :=
  let entry := pyStripL part
  if entry = [] then none
  else if !entry.contains ':' then none
  else
    let upperPart := pyStripL (entry.takeWhile (fun c => c ≠ ':'))
    let ratePart := pyStripL ((entry.dropWhile (fun c => c ≠ ':')).tail)
    match (if upperPart = ['-', '1'] then some none
           else (pyParseDecimal? upperPart.asString).map some) with
    | none => none
    | some upperValue =>
      match pyParseDecimal? ratePart.asString with
      | none => none
      | some rateValue => some ⟨upperValue, rateValue⟩

/-- parse_legacy_pricing_tiers (lines 324-349): a falsy raw value gives no
tiers, otherwise every ;-separated pair that survives legacyPair?. -/
def parse_legacy_pricing_tiers (raw : Option String) : List LegacyTier :=
  match pyTruthy raw with
  | none => []
  | some s => (splitOnChar ';' s.toList).filterMap legacyPair?

/-- Legacy branch of build_canonical_tiers_from_row (lines 487-500): chain the
lower bound from 0, stepping to quantize10(upper + TIER_INCREMENT) after each
bounded tier, and stop after the first unlimited tier. -/
def legacyChain (lowerBand : ℚ) : List LegacyTier → List Tier
  | [] => []
  | lt :: rest =>
    ⟨lowerBand, lt.upper, lt.rate⟩ ::
      match lt.upper with
      | none => []
      | some u => legacyChain (quantize10 (u + TIER_INCREMENT)) rest

/-- Column-name configuration consumed by the core (the argparse fields the
embedded functions read). -/
structure Args where
  tiers_column : String
  rate_column : String
  effective_date_column : String
  start_date_column : String
  end_date_column : String

/-- Decimal(str(parse_rate(cell))) of the fallback path (lines 299-306, 503):
parse_rate reads the cell as a float with default 0.0.  The float is modelled
as exact parsing of the plain decimal grammar; the binary-float round trip is
not modelled, and no claim depends on the fallback rate's value. -/
def parse_rate_as_decimal (value : Option String) : ℚ :=
  match pyTruthy value with
  | none => 0
  | some s => (pyParseDecimal? s).getD 0

/-- build_canonical_tiers_from_row (lines 462-512).  The structured branch
(lines 468-484) copies every parsed tier unchanged: the parser always
populates the lower bound, so its missing-lower recovery arm is unreachable.
The legacy branch chains explicit lower bounds; if neither encoding yields
tiers, a single unbounded tier at the flat rate is synthesized. -/
def build_canonical_tiers_from_row (row : Row) (args : Args) : List Tier :=
  let structuredTiers := parse_structured_pricing_tiers row 12
  if structuredTiers ≠ [] then structuredTiers
  else
    let canonical := legacyChain 0 (parse_legacy_pricing_tiers (row args.tiers_column))
    if canonical ≠ [] then canonical
    else [⟨0, none, parse_rate_as_decimal (row args.rate_column)⟩]

/-- Create-payload for one pricing period (the dict of lines 579-589); the
EndDate key is present only when the row has an end date. -/
structure PricingEntry where
  CurrencyCode : String
  ContractRateId : String
  EffectiveDate : String
  LowerBand : String
  UpperBand : String
  Rate : String
  RerateFlag : String
  EndDate : Option String
deriving DecidableEq, Repr

/-- Element of the skipped_existing report list: {"existing": entry}. -/
structure SkippedExisting (α : Type) where
  existing : α
deriving DecidableEq, Repr

/-- Sort key comparison of lines 542-543: (1 if upper is None else 0, lower),
ascending; mergeSort below is stable, like Python list.sort. -/
def creationLE (a b : ℕ × Tier) : Bool :=
  let fa : ℕ := if a.2.upper = none then 1 else 0
  let fb : ℕ := if b.2.upper = none then 1 else 0
  decide (fa < fb) || (decide (fa = fb) && decide (a.2.lower ≤ b.2.lower))

/-- tiers_for_creation = sorted(enumerate(canonical_tiers), key) of lines
542-543. -/
def tiersForCreation (ts : List Tier) : List (ℕ × Tier) :=
  ts.enum.mergeSort creationLE

/-- Create-payload built for one tier by lines 579-589: bands and rate
formatted per format_decimal, "-1" for the unlimited upper, re-rate flag fixed
at "0". -/
def entryOf (currency rid effIso : String) (endIso : Option String) (t : Tier) : PricingEntry :=
  { CurrencyCode := currency, ContractRateId := rid, EffectiveDate := effIso,
    LowerBand := format_decimal t.lower,
    UpperBand := match t.upper with
                 | none => "-1"
                 | some u => format_decimal u,
    Rate := format_decimal t.rate, RerateFlag := "0", EndDate := endIso }

/-- Inner per-tier loop of build_pricing_payloads_from_rows (lines 545-590).
An inverted bounded tier breaks (drops the remaining tiers of the row); with
an index supplied, a hit on (currency, lower, upper) records a skip and
continues; the truthiness test on the index entry is isSome, a present index
record being a non-empty dict. -/
def processTiers {α : Type} (currency rid effIso : String) (endIso : Option String)
    (index? : Option (String × ℚ × Option ℚ → Option α)) :
    List (ℕ × Tier) → List PricingEntry × List (SkippedExisting α)
  | [] => ([], [])
  | (_, t) :: rest =>
    match (match t.upper with
           | none => false
           | some u => decide (u < t.lower)) with
    | true => ([], [])
    | false =>
      match (match index? with
             | some f => f (currency, t.lower, t.upper)
             | none => none) with
      | some e =>
        let r := processTiers currency rid effIso endIso index? rest
        (r.1, ⟨e⟩ :: r.2)
      | none =>
        let r := processTiers currency rid effIso endIso index? rest
        (entryOf currency rid effIso endIso t :: r.1, r.2)

/-- Row effective date resolution of lines 530-533: explicit effective-date
cell, else start-date cell, else the caller-supplied fallback, else today. -/
def rowEffectiveDate (args : Args) (today : PyDate) (fallbackStart : Option PyDate)
    (row : Row) : PyDate :=
  parse_date (row args.effective_date_column)
    (some (parse_date (row args.start_date_column) fallbackStart today)) today

/-- Per-row loop of build_pricing_payloads_from_rows (lines 529-590), carrying
last_canonical_tiers; payload and skip lists are only appended to, so the loop
is the concatenation of per-row results. -/
def buildRowsLoop {α : Type} (rid currency : String) (args : Args) (today : PyDate)
    (fallbackStart : Option PyDate)
    (index? : Option (String × ℚ × Option ℚ → Option α)) :
    List Row → List Tier → List PricingEntry × List Tier × List (SkippedExisting α)
  | [], last => ([], last, [])
  | row :: rest, last =>
    let effIso := isoMidnight (rowEffectiveDate args today fallbackStart row)
    let endIso := (parse_optional_date (row args.end_date_column)).map isoMidnight
    let canonicalTiers := build_canonical_tiers_from_row row args
    let last2 := if canonicalTiers ≠ [] then canonicalTiers else last
    let r := processTiers currency rid effIso endIso index? (tiersForCreation canonicalTiers)
    let rec2 := buildRowsLoop rid currency args today fallbackStart index? rest last2
    (r.1 ++ rec2.1, rec2.2.1, r.2 ++ rec2.2.2)

/-- build_pricing_payloads_from_rows (lines 515-592): returns the pricing
payload entries, the last non-empty canonical ladder, and the skipped-existing
records. -/
def build_pricing_payloads_from_rows {α : Type} (contractRateId currencyCode : String)
    (rowsForGroup : List Row) (args : Args) (today : PyDate)
    (fallbackStartDate : Option PyDate)
    (index? : Option (String × ℚ × Option ℚ → Option α)) :
    List PricingEntry × List Tier × List (SkippedExisting α) :=
  buildRowsLoop contractRateId currencyCode args today fallbackStartDate index? rowsForGroup []

/-- Remote-ledger record as returned by a query: field name to optional value
(a dict with .get). -/
def RemoteRec : Type := String → Option String

/-- pr.get("EffectiveDate") or pr.get("effectivedate"), parsed. -/
def recEff (pr : RemoteRec) : Option PyDate :=
  parse_iso_to_date (pyOr (pr "EffectiveDate") (pr "effectivedate"))

/-- pr.get("EndDate") or pr.get("enddate"), parsed. -/
def recEnd (pr : RemoteRec) : Option PyDate :=
  parse_iso_to_date (pyOr (pr "EndDate") (pr "enddate"))

/-- pr.get("Id") or pr.get("id"). -/
def recId (pr : RemoteRec) : Option String := pyOr (pr "Id") (pr "id")

/-- Currently-active test of lines 1952-1957: effective date parses, is <= d,
and the end date is absent or >= d. -/
def isActiveAt (d : PyDate) (pr : RemoteRec) : Bool :=
  match recEff pr with
  | some eff =>
      dateLE eff d &&
        (match recEnd pr with
         | none => true
         | some e => dateLE d e)
  | none => false

/-- Ids collected for deletion by lines 1977-1983: records whose effective
date parses and is >= d, keeping only truthy ids. -/
def supersededIds (d : PyDate) (existing : List RemoteRec) : List String :=
  existing.filterMap (fun pr =>
    match recEff pr with
    | some eff => if dateLE d eff then pyTruthy (recId pr) else none
    | none => none)

/-- Remote calls issued by the price-change reconciler, in order. -/
inductive LedgerAction where
  | shorten (id : Option String) (endDate : String)
  | deleteBatch (ids : List String)
  | createBatch (entries : List PricingEntry)
deriving DecidableEq, Repr

/-- Success/failure outcome of the shorten and delete remote calls (the create
call's own failure is only logged and does not alter the trace). -/
structure RemoteOutcome where
  shortenOk : Bool
  deleteOk : Bool

/-- Steps 5 and 6 of the price-change flow (lines 1977-2030): delete the
superseded periods (aborting the group if the delete call fails), then batch
create the new payloads built with no existing-index. -/
def priceChangeTail (contractRateId currencyCode : String) (rowsForGroup : List Row)
    (args : Args) (today : PyDate) (existingPricing : List RemoteRec)
    (firstEffectiveDate : PyDate) (outcome : RemoteOutcome) : List LedgerAction :=
  let ids := supersededIds firstEffectiveDate existingPricing
  if ids ≠ [] && !outcome.deleteOk then [LedgerAction.deleteBatch ids]
  else
    let ps := (build_pricing_payloads_from_rows (α := Unit) contractRateId currencyCode
      rowsForGroup args today (some firstEffectiveDate) none).1
    (if ids = [] then [] else [LedgerAction.deleteBatch ids]) ++
      (if ps ≠ [] then [LedgerAction.createBatch ps] else [])

/-- Shorten step of lines 1951-1975: the first existing period active at the
first effective date, when its own effective date is strictly earlier, gets
its end date set to the cut date. -/
def shortenStep (existingPricing : List RemoteRec) (firstEffectiveDate : PyDate) :
    Option LedgerAction :=
  match existingPricing.find? (isActiveAt firstEffectiveDate) with
  | some cur =>
    match recEff cur with
    | some eff =>
      if dateLT eff firstEffectiveDate then
        some (LedgerAction.shorten (recId cur) (isoMidnight (predDay firstEffectiveDate)))
      else none
    | none => none
  | none => none

/-- apply_price_changes_to_contract_rate (lines 1923-2030) as the trace of
ledger calls it issues.  The fetch of existing pricing is the explicit
existingPricing input (the remote query is out of scope); a failed shorten or
delete call appears in the trace (it was issued) and aborts the group there,
exactly as the except/return arms do. -/
def apply_price_changes_to_contract_rate (contractRateId currencyCode : String)
    (rowsForGroup : List Row) (args : Args) (today : PyDate)
    (existingPricing : List RemoteRec) (outcome : RemoteOutcome) : List LedgerAction :=
  match rowsForGroup with
  | [] => []
  | firstRow :: _ =>
    match parse_iso_to_date
        (pyOr (firstRow args.effective_date_column) (firstRow args.start_date_column)) with
    | none => []
    | some firstEffectiveDate =>
      match shortenStep existingPricing firstEffectiveDate with
      | some act =>
        if !outcome.shortenOk then [act]
        else act :: priceChangeTail contractRateId currencyCode rowsForGroup args today
          existingPricing firstEffectiveDate outcome
      | none => priceChangeTail contractRateId currencyCode rowsForGroup args today
          existingPricing firstEffectiveDate outcome

/-- Column-name configuration read by the quantity handler. -/
structure QArgs where
  account_column : String
  product_column : String
  cpq_contract_id_column : String
  quantity_column : String

/-- Payload of the quantity update call (lines 2103-2107).  Quantity is
str(new_quantity); it is modelled at the Decimal value level (str of a
Decimal keeps the parsed digits, which no claim inspects). -/
structure QuantityUpdate where
  Id : String
  Quantity : ℚ
  ContractModificationDate : String
deriving DecidableEq, Repr

/-- Python str.upper() (ASCII subset relevant to status strings). -/
def pyUpper (s : String) : String := (s.toList.map Char.toUpper).asString

/-- Python str(x) of an optional string: None renders as "None". -/
def pyStrOfOptStr (o : Option String) : String := o.getD "None"

/-- str(ap_detail.get("Status") or ap_detail.get("status")).upper() of lines
2093-2094. -/
def apStatus (d0 : RemoteRec) : String :=
  pyUpper (pyStrOfOptStr (pyOr (d0 "Status") (d0 "status")))

/-- handle_quantity_change (lines 2033-2124) as the optional update payload it
submits.  Remote lookups are explicit inputs: accountLookup is none when the
account query raised (the one caught exception), contractLookup is the
(contract id, contract start date) pair of lookup_contract_id_by_cpq_id,
productId? the product mapping, apRecords the find_account_product result and
apDetails the get_account_product result.  ap_records[0]["Id"] is modelled
with a "" default (ledger records carry Id; a KeyError would abort the row
like any uncaught lookup error). -/
def handle_quantity_change (row : Row) (args : QArgs)
    (accountLookup : Option (List RemoteRec))
    (contractLookup : Option String × Option String)
    (productId? : Option String)
    (apRecords apDetails : List RemoteRec) : Option QuantityUpdate :=
  let quantityStr := pyStrip ((row args.quantity_column).getD "")
  match pyParseDecimal? quantityStr with
  | none => none
  | some newQuantity =>
    match accountLookup with
    | none => none
    | some accountRecords =>
      match accountRecords with
      | [] => none
      | _ :: _ =>
        let cpqContractId := pyStrip ((row args.cpq_contract_id_column).getD "")
        if cpqContractId = "" then none
        else
          match pyTruthy contractLookup.1 with
          | none => none
          | some _ =>
            match pyTruthy contractLookup.2 with
            | none => none
            | some contractStartDate =>
              match pyTruthy productId? with
              | none => none
              | some _ =>
                match apRecords with
                | [] => none
                | apRec :: _ =>
                  let apId := (apRec "Id").getD ""
                  match apDetails with
                  | [] => none
                  | apDetail :: _ =>
                    if apStatus apDetail ≠ "ACTIVE" then none
                    else some ⟨apId, newQuantity, contractStartDate⟩

/-- Contiguity check threading the previous bounded upper: each tier whose
predecessor is bounded must start at that upper plus TIER_INCREMENT; an
unlimited predecessor imposes no constraint on what follows. -/
def contiguousFromB : Option ℚ → List Tier → Bool
  | _, [] => true
  | prev, t :: rest =>
    (match prev with
     | some pu => decide (t.lower = pu + TIER_INCREMENT)
     | none => true) && contiguousFromB t.upper rest

/-- Ladder contiguity: adjacent pairs (in list order) satisfy
next.lower = prev.upper + TIER_INCREMENT for every bounded prev. -/
def ladderContiguous (ts : List Tier) : Bool := contiguousFromB none ts

/-- Every tier except possibly the final one is bounded (so at most one tier
is unlimited, and an unlimited tier can only be last). -/
def boundedButLastB : List Tier → Bool
  | [] => true
  | [_] => true
  | a :: b :: rest => a.upper.isSome && boundedButLastB (b :: rest)

/-- Integer multiple of TIER_INCREMENT = 10^-10, i.e. a decimal with at most
ten fractional digits. -/
def isMulIncB (q : ℚ) : Bool := decide ((q * 10 ^ 10).den = 1)

/-- Trace mandated by spec section 4.5 for a price-change group with first
effective date d, written from the spec's words: shorten the currently active
period (exactly its end date, to d minus one day) when its effective date is
strictly before d, delete every period effective on or after d, then create
the new payloads built from the group's rows with no existing-period
deduplication. -/
def specPriceChangeTrace (contractRateId currencyCode : String) (rowsForGroup : List Row)
    (args : Args) (today : PyDate) (d : PyDate) (existing : List RemoteRec) :
    List LedgerAction :=
  let shortenActs : List LedgerAction :=
    match existing.find? (isActiveAt d) with
    | some active =>
      match recEff active with
      | some eff =>
        if dateLT eff d then [LedgerAction.shorten (recId active) (isoMidnight (predDay d))]
        else []
      | none => []
    | none => []
  let ids := supersededIds d existing
  let ps := (build_pricing_payloads_from_rows (α := Unit) contractRateId currencyCode
    rowsForGroup args today (some d) none).1
  shortenActs ++ (if ids = [] then [] else [LedgerAction.deleteBatch ids]) ++
    (if ps = [] then [] else [LedgerAction.createBatch ps])

/-- Column configuration used by the concrete examples below. -/
def argsX : Args := ⟨"tiers", "rate", "eff", "start", "end"⟩

/-- Row with an explicit tier-2 from-quantity of 500 that does not match
tier 1's upper of 100 plus TIER_INCREMENT. -/
def rowMismatch : Row := fun k =>
  if k = "tier1_from_qty" then some "0"
  else if k = "tier1_to_qty" then some "100"
  else if k = "tier1_rate" then some "5"
  else if k = "tier2_from_qty" then some "500"
  else if k = "tier2_to_qty" then some "600"
  else if k = "tier2_rate" then some "3"
  else none

/-- Row whose slot 2 is entirely empty while slot 3 carries an unlimited
tier. -/
def rowGap : Row := fun k =>
  if k = "tier1_from_qty" then some "0"
  else if k = "tier1_to_qty" then some "100"
  else if k = "tier1_rate" then some "5"
  else if k = "tier3_to_qty" then some "-1"
  else if k = "tier3_rate" then some "3"
  else none

/-- Two-tier structured row with blank from-quantities: bounded to 100 at
rate 5, then unlimited at rate 3. -/
def rowTwoTier : Row := fun k =>
  if k = "tier1_to_qty" then some "100"
  else if k = "tier1_rate" then some "5"
  else if k = "tier2_to_qty" then some "-1"
  else if k = "tier2_rate" then some "3"
  else none

/-- Amendment row effective 2025-03-01 carrying a single unlimited tier at
rate 5. -/
def rowAmend : Row := fun k =>
  if k = "eff" then some "2025-03-01"
  else if k = "tier1_to_qty" then some "-1"
  else if k = "tier1_rate" then some "5"
  else none

/-- Existing remote pricing period P1, effective 2025-01-01, no end date. -/
def recP1 : RemoteRec := fun k =>
  if k = "Id" then some "P1"
  else if k = "EffectiveDate" then some "2025-01-01T00:00:00.000Z"
  else none

/-- Existing remote pricing period P2, effective 2025-04-01 (on or after the
2025-03-01 amendment date). -/
def recP2 : RemoteRec := fun k =>
  if k = "Id" then some "P2"
  else if k = "EffectiveDate" then some "2025-04-01T00:00:00.000Z"
  else none

/-- Existing-period index holding exactly the (USD, 0, 100) tier. -/
def indexUSD : String × ℚ × Option ℚ → Option String := fun k =>
  if k = ("USD", (0 : ℚ), some (100 : ℚ)) then some "E1" else none

/-- Remote account-product detail record with a non-active status. -/
def apClosed : RemoteRec := fun k => if k = "Status" then some "CLOSED" else none

/-- Remote account-product detail record with the active status. -/
def apActive : RemoteRec := fun k =>
  if k = "Id" then some "AP1" else if k = "Status" then some "Active" else none

/-- Remote account-product record carrying its id. -/
def apRec1 : RemoteRec := fun k => if k = "Id" then some "AP1" else none

/-- Generic remote record with just an id, used as a placeholder lookup
result. -/
def recAcct : RemoteRec := fun k => if k = "Id" then some "A1" else none

/-- Column configuration for the quantity-change examples. -/
def qargsX : QArgs := ⟨"account", "product", "cpq", "qty"⟩

/-- Quantity-change row: account, product, CPQ contract id and quantity. -/
def rowQty : Row := fun k =>
  if k = "account" then some "Acme"
  else if k = "product" then some "Widget"
  else if k = "cpq" then some "CPQ-1"
  else if k = "qty" then some "7"
  else none

/-- Bridging fact: a character list renders back to itself through asString
(String values are their character lists). -/
theorem asString_toList (l : List Char) : l.asString.toList = l := rfl

/-- Bridging fact for the data projection of asString. -/
theorem asString_data (l : List Char) : l.asString.data = l := rfl

/-- Fuel irrelevance of the digit renderer: any sufficient fuel produces the
same digits. -/
theorem natToDigitsAux_congr : ∀ f1 f2 n : ℕ, n ≤ f1 → n ≤ f2 →
    natToDigitsAux f1 n = natToDigitsAux f2 n := by
  intro f1
  induction f1 with
  | zero =>
    intro f2 n h1 _
    interval_cases n
    cases f2 with
    | zero => rfl
    | succ f2' => rfl
  | succ f1' ih =>
    intro f2 n h1 h2
    cases f2 with
    | zero =>
      interval_cases n
      rfl
    | succ f2' =>
      simp only [natToDigitsAux]
      by_cases h : n < 10
      · simp [h]
      · simp only [h, if_false]
        have hlt : n / 10 < n := Nat.div_lt_self (by omega) (by omega)
        congr 1
        exact ih f2' (n / 10) (by omega) (by omega)

/-- Recurrence of the digit renderer, independent of fuel. -/
theorem natToDigits_eq (n : ℕ) :
    natToDigits n = if n < 10 then [digitChar n] else natToDigits (n / 10) ++ [digitChar (n % 10)] := by
  unfold natToDigits
  cases n with
  | zero => rfl
  | succ m =>
    simp only [natToDigitsAux]
    by_cases h : m + 1 < 10
    · simp [h]
    · simp only [h, if_false]
      have hlt : (m + 1) / 10 < m + 1 := Nat.div_lt_self (by omega) (by omega)
      rw [natToDigitsAux_congr m ((m + 1) / 10) ((m + 1) / 10) (by omega) (by omega)]

/-- C3 counterexample: in rowGap every cell of slot 2 is empty, yet the
parsed ladder still contains the unlimited tier contributed by slot 3 — the
loop treats an all-empty slot as continue, not as the end of the ladder, so
parsing does not stop there. -/
theorem rowGap_parses_past_empty_slot :
    (cell rowGap (tierKey 2 "_from_qty") = "" ∧ cell rowGap (tierKey 2 "_to_qty") = "" ∧
      cell rowGap (tierKey 2 "_rate") = "") ∧
    parse_structured_pricing_tiers rowGap 12 =
      [⟨0, some 100, 5⟩, ⟨100 + TIER_INCREMENT, none, 3⟩] := by
  refine ⟨by decide, ?_⟩
  norm_num +decide [parse_structured_pricing_tiers, structSlots, slotStep, lowerCellParsed,
    upperCellParsed, slotLower, cell, tierKey,
    pyStrip, pyStripL, dropTrailing, pyIsSpace, pyParseDecimal?, parseDecimalCore?,
    splitOnChar, digitsToNat, digitVal, TIER_INCREMENT, UNLIMITED_TIER_SENTINEL, quantize10,
    roundHalfEven, rowGap, List.range', asString_toList, asString_data]

/-- C3 (amended): a slot whose from-quantity, to-quantity and rate cells are
all empty is skipped and parsing continues with the remaining slots,
preserving the chaining state. -/
theorem empty_slot_skipped (row : Row) (i : ℕ) (rest : List ℕ) (prev : Option ℚ)
    (h1 : cell row (tierKey i "_from_qty") = "")
    (h2 : cell row (tierKey i "_to_qty") = "")
    (h3 : cell row (tierKey i "_rate") = "") :
    structSlots row (i :: rest) prev = structSlots row rest prev := by
  simp [structSlots, slotStep, h1, h2, h3]

/-- Witness: empty_slot_skipped applied to rowGap's empty slot 2. -/
theorem empty_slot_skipped_witness :
    structSlots rowGap (2 :: [3]) none = structSlots rowGap [3] none :=
  empty_slot_skipped rowGap 2 [3] none (by decide) (by decide) (by decide)

/-- Characterization of isMulIncB: the integer multiples of TIER_INCREMENT =
10^-10. -/
theorem isMulIncB_iff (q : ℚ) : isMulIncB q = true ↔ ∃ k : ℤ, q = (k : ℚ) / 10 ^ 10 := by
  unfold isMulIncB
  rw [decide_eq_true_iff]
  constructor
  · intro h
    refine ⟨(q * 10 ^ 10).num, ?_⟩
    have h2 := (Rat.den_eq_one_iff (q * 10 ^ 10)).mp h
    rw [eq_div_iff (by norm_num : ((10 : ℚ) ^ 10) ≠ 0)]
    exact h2.symm
  · rintro ⟨k, rfl⟩
    have h10 : (k : ℚ) / 10 ^ 10 * 10 ^ 10 = (k : ℚ) := by
      field_simp
    rw [h10, Rat.den_intCast]

/-- Bankers rounding is the identity on integers. -/
theorem roundHalfEven_intCast (k : ℤ) : roundHalfEven (k : ℚ) = k := by
  simp only [roundHalfEven, Int.floor_intCast]
  rw [if_pos (by norm_num)]

/-- Quantization to ten fractional digits fixes every multiple of
TIER_INCREMENT. -/
theorem quantize10_of_mulInc {q : ℚ} (h : isMulIncB q = true) : quantize10 q = q := by
  obtain ⟨k, rfl⟩ := (isMulIncB_iff q).mp h
  unfold quantize10
  have h10 : (k : ℚ) / 10 ^ 10 * 10 ^ 10 = (k : ℚ) := by field_simp
  rw [h10, roundHalfEven_intCast]

/-- Multiples of TIER_INCREMENT are closed under adding TIER_INCREMENT. -/
theorem isMulIncB_add_inc {q : ℚ} (h : isMulIncB q = true) :
    isMulIncB (q + TIER_INCREMENT) = true := by
  obtain ⟨k, rfl⟩ := (isMulIncB_iff q).mp h
  refine (isMulIncB_iff _).mpr ⟨k + 1, ?_⟩
  unfold TIER_INCREMENT
  push_cast
  rw [div_add_div_same]

/-- With a blank from-quantity and a previous upper that is a multiple of
TIER_INCREMENT, the derived lower bound is exactly the chained value. -/
theorem slotLower_chained {pu : ℚ} (h : isMulIncB pu = true) :
    slotLower none (some pu) = pu + TIER_INCREMENT := by
  have hq := quantize10_of_mulInc (isMulIncB_add_inc h)
  simp [slotLower, hq]

/-- Shape analysis of one slot of the structured parser: it is skipped,
aborts, ends the ladder with an unlimited tier, or appends a bounded tier
whose upper comes from the parsed to-quantity; in the last two cases the
tier's lower bound is slotLower of the parsed from-quantity. -/
theorem slotStep_shape (row : Row) (i : ℕ) (prev : Option ℚ) :
    slotStep row i prev = SlotOutcome.emptySlot ∨
    slotStep row i prev = SlotOutcome.abort ∨
    (∃ lp r, lowerCellParsed row i = some lp ∧
      slotStep row i prev = SlotOutcome.last ⟨slotLower lp prev, none, r⟩) ∨
    (∃ lp r u, lowerCellParsed row i = some lp ∧
      pyParseDecimal? (cell row (tierKey i "_to_qty")) = some u ∧
      slotStep row i prev = SlotOutcome.cont ⟨slotLower lp prev, some u, r⟩ u) := by
  simp only [slotStep]
  split
  · exact Or.inl rfl
  split
  · exact Or.inr (Or.inl rfl)
  split
  · exact Or.inr (Or.inl rfl)
  next rateValue _ =>
    split
    · exact Or.inr (Or.inl rfl)
    next lp hlp =>
      split
      · exact Or.inr (Or.inl rfl)
      next up? hup =>
        split
        next uv huv =>
          split
          · exact Or.inr (Or.inl rfl)
          · refine Or.inr (Or.inr (Or.inr ⟨lp, rateValue, uv, hlp, ?_, rfl⟩))
            cases up? with
            | none => exact absurd huv (by simp)
            | some uv1 =>
              have huv2 : (if uv1 = UNLIMITED_TIER_SENTINEL then none else some uv1) =
                  some uv := huv
              by_cases hs : uv1 = UNLIMITED_TIER_SENTINEL
              · rw [if_pos hs] at huv2
                exact absurd huv2 (by simp)
              · rw [if_neg hs] at huv2
                obtain rfl : uv1 = uv := by injection huv2
                unfold upperCellParsed at hup
                split at hup
                · rw [Option.map_eq_some'] at hup
                  obtain ⟨q0, hq0, hq1⟩ := hup
                  injection hq1 with hq2
                  rw [← hq2]
                  exact hq0
                · exact absurd hup (by simp)
        next huv =>
          exact Or.inr (Or.inr (Or.inl ⟨lp, rateValue, hlp, rfl⟩))

/-- Contiguity of the structured-parser loop when every from-quantity cell in
the remaining slots is blank and every parsed to-quantity is a multiple of
TIER_INCREMENT. -/
theorem structSlots_contiguous (row : Row) (idxs : List ℕ)
    (hfrom : ∀ i ∈ idxs, cell row (tierKey i "_from_qty") = "")
    (hto : ∀ i ∈ idxs, ∀ q, pyParseDecimal? (cell row (tierKey i "_to_qty")) = some q →
      isMulIncB q = true) :
    ∀ prev, (∀ pu, prev = some pu → isMulIncB pu = true) →
      contiguousFromB prev (structSlots row idxs prev).1 = true := by
  induction idxs with
  | nil => intro prev _; simp [structSlots, contiguousFromB]
  | cons i rest ih =>
    intro prev hprev
    have hfromi : cell row (tierKey i "_from_qty") = "" := hfrom i (by simp)
    have hlpnone : lowerCellParsed row i = some none := by
      unfold lowerCellParsed
      rw [if_neg (by simp [hfromi])]
    rcases slotStep_shape row i prev with h | h | ⟨lp, r, hlp, h⟩ | ⟨lp, r, u, hlp, hu, h⟩
    · rw [structSlots, h]
      exact ih (fun j hj => hfrom j (by simp [hj])) (fun j hj => hto j (by simp [hj])) prev hprev
    · rw [structSlots, h]
      simp [contiguousFromB]
    · rw [structSlots, h]
      rw [hlpnone] at hlp
      cases hlp
      cases prev with
      | none => simp [contiguousFromB]
      | some pu =>
        simp only [contiguousFromB, Bool.and_eq_true]
        exact ⟨by simp [slotLower_chained (hprev pu rfl)], by trivial⟩
    · rw [structSlots, h]
      rw [hlpnone] at hlp
      cases hlp
      have hrest : contiguousFromB (some u) (structSlots row rest (some u)).1 = true := by
        refine ih (fun j hj => hfrom j (by simp [hj])) (fun j hj => hto j (by simp [hj]))
          (some u) ?_
        intro pu hpu
        cases hpu
        exact hto i (by simp) u hu
      cases prev with
      | none => simpa [contiguousFromB] using hrest
      | some pu =>
        simp only [contiguousFromB, Bool.and_eq_true]
        exact ⟨by simp [slotLower_chained (hprev pu rfl)], hrest⟩

/-- Contiguity of the legacy chain when every bounded upper is a multiple of
TIER_INCREMENT. -/
theorem legacyChain_contiguous (lts : List LegacyTier)
    (hmul : ∀ lt ∈ lts, ∀ u, lt.upper = some u → isMulIncB u = true) :
    ∀ lb prev, (∀ pu, prev = some pu → lb = pu + TIER_INCREMENT) →
      contiguousFromB prev (legacyChain lb lts) = true := by
  induction lts with
  | nil => intro lb prev _; simp [legacyChain, contiguousFromB]
  | cons lt rest ih =>
    intro lb prev hlink
    simp only [legacyChain, contiguousFromB, Bool.and_eq_true]
    constructor
    · cases prev with
      | none => rfl
      | some pu => simp [hlink pu rfl]
    · cases hup : lt.upper with
      | none => simp [contiguousFromB]
      | some u =>
        refine ih (fun j hj => hmul j (by simp [hj])) _ (some u) ?_
        intro pu hpu
        cases hpu
        exact quantize10_of_mulInc (isMulIncB_add_inc (hmul lt (by simp) u hup))

/-- C1 (amended): for a row whose from-quantity cells are all blank (lower
bounds derived by chaining) and whose parsed to-quantities are multiples of
TIER_INCREMENT, and whose legacy uppers (if the legacy encoding is used) are
multiples of TIER_INCREMENT, the canonical ladder is contiguous: each tier
after a bounded tier starts at that upper plus TIER_INCREMENT.  An explicit
from-quantity that mismatches the chained value is logged but kept, so it can
break contiguity without truncation (rowMismatch_breaks_contiguity);
truncation happens only for unparsable cells or inverted bounds. -/
theorem canonical_ladder_contiguous (row : Row) (args : Args)
    (hfrom : ∀ i ∈ List.range' 1 12, cell row (tierKey i "_from_qty") = "")
    (hto : ∀ i ∈ List.range' 1 12,
      ((pyParseDecimal? (cell row (tierKey i "_to_qty"))).all fun q => isMulIncB q) = true)
    (hleg : ∀ lt ∈ parse_legacy_pricing_tiers (row args.tiers_column), ∀ u,
      lt.upper = some u → isMulIncB u = true) :
    ladderContiguous (build_canonical_tiers_from_row row args) = true := by
  simp only [build_canonical_tiers_from_row, ladderContiguous]
  have hstruct : contiguousFromB none (structSlots row (List.range' 1 12) none).1 = true := by
    refine structSlots_contiguous row (List.range' 1 12) hfrom ?_ none (by simp)
    intro i hi q hq
    have := hto i hi
    rw [hq] at this
    simpa using this
  split
  · simp only [parse_structured_pricing_tiers]
    split
    · simp [contiguousFromB]
    · exact hstruct
  · split
    · exact legacyChain_contiguous _ hleg 0 none (by simp)
    · simp [contiguousFromB]

/-- Witness: canonical_ladder_contiguous applied to the blank-from two-tier
row. -/
theorem canonical_ladder_contiguous_witness :
    ladderContiguous (build_canonical_tiers_from_row rowTwoTier argsX) = true :=
  canonical_ladder_contiguous rowTwoTier argsX (by decide)
    (by
      intro i hi
      fin_cases hi <;>
        norm_num +decide [cell, tierKey, rowTwoTier, pyStrip, pyStripL, dropTrailing,
          pyIsSpace, pyParseDecimal?, parseDecimalCore?, splitOnChar, digitsToNat, digitVal,
          isMulIncB, asString_toList, asString_data, Option.all])
    (by
      intro lt hlt
      simp [parse_legacy_pricing_tiers, pyTruthy, rowTwoTier, argsX] at hlt)

/-- C1 counterexample: rowMismatch supplies tier 2 an explicit from-quantity
of 500 while tier 1's upper is 100; the canonical ladder keeps both tiers
(nothing is truncated) and violates contiguity. -/
theorem rowMismatch_breaks_contiguity :
    build_canonical_tiers_from_row rowMismatch argsX =
      [⟨0, some 100, 5⟩, ⟨500, some 600, 3⟩] ∧
    ladderContiguous (build_canonical_tiers_from_row rowMismatch argsX) = false ∧
    ¬ (500 : ℚ) = 100 + TIER_INCREMENT := by
  refine ⟨?_, ?_, by norm_num [TIER_INCREMENT]⟩ <;>
    norm_num +decide [build_canonical_tiers_from_row, parse_structured_pricing_tiers,
      structSlots, slotStep, lowerCellParsed, upperCellParsed, slotLower,
      cell, tierKey, ladderContiguous, contiguousFromB,
      pyStrip, pyStripL, dropTrailing, pyIsSpace, pyParseDecimal?, parseDecimalCore?,
      splitOnChar, digitsToNat, digitVal, TIER_INCREMENT, UNLIMITED_TIER_SENTINEL, quantize10,
      roundHalfEven, rowMismatch, argsX, List.range', asString_toList, asString_data]

end ContractLoader
namespace ContractLoader

/-- Truncation of the legacy chain: pairs after the first unlimited pair
contribute nothing to the canonical ladder. -/
theorem legacyChain_stops (lts₁ : List LegacyTier) (r : ℚ) (lts₂ : List LegacyTier)
    (hbnd : ∀ lt ∈ lts₁, lt.upper ≠ none) :
    ∀ lb, legacyChain lb (lts₁ ++ ⟨none, r⟩ :: lts₂) = legacyChain lb (lts₁ ++ [⟨none, r⟩]) := by
  induction lts₁ with
  | nil => intro lb; simp [legacyChain]
  | cons lt rest ih =>
    intro lb
    cases hu : lt.upper with
    | none => exact absurd hu (hbnd lt (by simp))
    | some u =>
      simp only [List.cons_append, legacyChain, hu]
      congr 1
      exact ih (fun j hj => hbnd j (by simp [hj])) _

/-- The legacy chain never puts a tier after an unlimited tier. -/
theorem legacyChain_boundedButLast (lts : List LegacyTier) :
    ∀ lb, boundedButLastB (legacyChain lb lts) = true := by
  induction lts with
  | nil => intro lb; rfl
  | cons lt rest ih =>
    intro lb
    cases hu : lt.upper with
    | none => simp [legacyChain, hu, boundedButLastB]
    | some u =>
      simp only [legacyChain, hu]
      cases htail : legacyChain (quantize10 (u + TIER_INCREMENT)) rest with
      | nil => rfl
      | cons a tl =>
        have h2 := ih (quantize10 (u + TIER_INCREMENT))
        rw [htail] at h2
        simp [boundedButLastB, h2]

/-- C9: for a legacy tier string whose parsed pairs decompose as bounded
pairs, then an unlimited pair, then anything, canonicalization produces the
same ladder as if the pairs after the unlimited one were absent, and no tier
of a legacy-sourced ladder ever follows an unlimited tier. -/
theorem legacy_stops_at_unlimited (s : String) (lts₁ lts₂ : List LegacyTier) (r : ℚ)
    (hdec : parse_legacy_pricing_tiers (some s) = lts₁ ++ ⟨none, r⟩ :: lts₂)
    (hbnd : ∀ lt ∈ lts₁, lt.upper ≠ none) :
    legacyChain 0 (parse_legacy_pricing_tiers (some s)) =
      legacyChain 0 (lts₁ ++ [⟨none, r⟩]) ∧
    boundedButLastB (legacyChain 0 (parse_legacy_pricing_tiers (some s))) = true := by
  constructor
  · rw [hdec]
    exact legacyChain_stops lts₁ r lts₂ hbnd 0
  · exact legacyChain_boundedButLast _ 0

/-- Witness: legacy_stops_at_unlimited on "100:5;-1:3;200:7", whose pair
after the unlimited pair contributes no canonical tier. -/
theorem legacy_stops_at_unlimited_witness :
    legacyChain 0 (parse_legacy_pricing_tiers (some "100:5;-1:3;200:7")) =
      legacyChain 0 ([⟨some 100, 5⟩] ++ [⟨none, 3⟩]) ∧
    boundedButLastB (legacyChain 0 (parse_legacy_pricing_tiers (some "100:5;-1:3;200:7"))) =
      true := by
  refine legacy_stops_at_unlimited "100:5;-1:3;200:7" [⟨some 100, 5⟩] [⟨some 200, 7⟩] 3 ?_ ?_
  · norm_num +decide [parse_legacy_pricing_tiers, legacyPair?, pyTruthy, splitOnChar,
      pyStripL, dropTrailing, pyIsSpace, pyParseDecimal?, parseDecimalCore?, digitsToNat,
      digitVal, asString_toList, asString_data]
  · intro lt hlt
    simp only [List.mem_singleton] at hlt
    simp [hlt]

/-- The structured-parser loop never puts a tier after an unlimited tier. -/
theorem structSlots_boundedButLast (row : Row) (idxs : List ℕ) :
    ∀ prev, boundedButLastB (structSlots row idxs prev).1 = true := by
  induction idxs with
  | nil => intro prev; rfl
  | cons i rest ih =>
    intro prev
    rcases slotStep_shape row i prev with h | h | ⟨lp, r, hlp, h⟩ | ⟨lp, r, u, hlp, hu, h⟩
    · rw [structSlots, h]; exact ih prev
    · rw [structSlots, h]; rfl
    · rw [structSlots, h]; rfl
    · rw [structSlots, h]
      have h2 := ih (some u)
      cases htail : (structSlots row rest (some u)).1 with
      | nil => simp [htail, boundedButLastB]
      | cons a tl =>
        rw [htail] at h2
        simp [htail, boundedButLastB, h2]

/-- Every canonical ladder keeps any unlimited tier in last position. -/
theorem canonical_boundedButLast (row : Row) (args : Args) :
    boundedButLastB (build_canonical_tiers_from_row row args) = true := by
  simp only [build_canonical_tiers_from_row]
  split
  · simp only [parse_structured_pricing_tiers]
    split
    · rfl
    · exact structSlots_boundedButLast row (List.range' 1 12) none
  · split
    · exact legacyChain_boundedButLast _ 0
    · rfl

/-- A ladder with every non-final tier bounded has at most one unlimited
tier. -/
theorem countP_unlimited_le_one (ts : List Tier) (h : boundedButLastB ts = true) :
    ts.countP (fun t => t.upper.isNone) ≤ 1 := by
  induction ts with
  | nil => simp
  | cons a rest ih =>
    cases rest with
    | nil =>
      refine le_trans (List.countP_le_length _) (by simp)
    | cons b tl =>
      simp only [boundedButLastB, Bool.and_eq_true] at h
      have ha : a.upper.isNone = false := by
        cases hau : a.upper with
        | none =>
          exfalso
          rw [hau] at h
          simpa using h.1
        | some u => simp [hau]
      simpa [List.countP_cons, ha] using ih h.2

/-- countP over the enumeration agrees with countP over the list. -/
theorem countP_enumFrom (p : Tier → Bool) (ts : List Tier) :
    ∀ n, (List.enumFrom n ts).countP (fun q => p q.2) = ts.countP p := by
  induction ts with
  | nil => intro n; rfl
  | cons a rest ih =>
    intro n
    simp only [List.enumFrom, List.countP_cons, ih]

/-- Totality of the creation-order comparison. -/
theorem creationLE_total (a b : ℕ × Tier) : (creationLE a b || creationLE b a) = true := by
  simp only [creationLE, Bool.or_eq_true, Bool.and_eq_true, decide_eq_true_iff]
  rcases lt_trichotomy (if a.2.upper = none then (1 : ℕ) else 0)
      (if b.2.upper = none then (1 : ℕ) else 0) with h | h | h
  · exact Or.inl (Or.inl h)
  · rcases le_total a.2.lower b.2.lower with hl | hl
    · exact Or.inl (Or.inr ⟨h, hl⟩)
    · exact Or.inr (Or.inr ⟨h.symm, hl⟩)
  · exact Or.inr (Or.inl h)

/-- Transitivity of the creation-order comparison. -/
theorem creationLE_trans (a b c : ℕ × Tier) (hab : creationLE a b = true)
    (hbc : creationLE b c = true) : creationLE a c = true := by
  simp only [creationLE, Bool.or_eq_true, Bool.and_eq_true, decide_eq_true_iff] at *
  rcases hab with h1 | ⟨h1, h1'⟩ <;> rcases hbc with h2 | ⟨h2, h2'⟩
  · exact Or.inl (h1.trans h2)
  · exact Or.inl (h2 ▸ h1)
  · exact Or.inl (h1 ▸ h2)
  · exact Or.inr ⟨h1.trans h2, h1'.trans h2'⟩

/-- A tier ordered at or after an unlimited tier by creationLE is itself
unlimited. -/
theorem creationLE_unlimited {a b : ℕ × Tier} (h : creationLE a b = true)
    (ha : a.2.upper = none) : b.2.upper = none := by
  cases hb : b.2.upper with
  | none => rfl
  | some u =>
    simp [creationLE, ha, hb] at h

/-- C7: every canonical ladder has at most one unlimited tier, and in the
creation order produced by the (unlimited_flag, lower) sort an unlimited tier
is last, with every bounded tier before it, regardless of input order. -/
theorem unlimited_tier_sorts_last (row : Row) (args : Args) :
    (build_canonical_tiers_from_row row args).countP (fun t => t.upper.isNone) ≤ 1 ∧
    ∀ p ∈ tiersForCreation (build_canonical_tiers_from_row row args), p.2.upper = none →
      ∃ l, tiersForCreation (build_canonical_tiers_from_row row args) = l ++ [p] ∧
        ∀ q ∈ l, q.2.upper ≠ none := by
  have hcount := countP_unlimited_le_one _ (canonical_boundedButLast row args)
  refine ⟨hcount, ?_⟩
  intro p hp hpu
  have hperm : (tiersForCreation (build_canonical_tiers_from_row row args)).Perm
      ((build_canonical_tiers_from_row row args).enum) :=
    List.mergeSort_perm _ _
  have hsorted := List.sorted_mergeSort creationLE_trans creationLE_total
    ((build_canonical_tiers_from_row row args).enum)
  obtain ⟨l1, l2, hdec⟩ := List.append_of_mem hp
  have hcs : (tiersForCreation (build_canonical_tiers_from_row row args)).countP
      (fun q => q.2.upper.isNone) ≤ 1 := by
    rw [hperm.countP_eq]
    exact le_of_eq_of_le
      (countP_enumFrom (fun t => t.upper.isNone) (build_canonical_tiers_from_row row args) 0)
      hcount
  rw [hdec] at hcs
  have hsorted2 : List.Pairwise (fun a b => creationLE a b = true) (l1 ++ p :: l2) := by
    rw [← hdec]
    exact hsorted
  have hl2 : ∀ q ∈ l2, q.2.upper = none := by
    intro q hq
    exact creationLE_unlimited
      ((List.pairwise_cons.mp (List.pairwise_append.mp hsorted2).2.1).1 q hq) hpu
  have hl2nil : l2 = [] := by
    rcases l2 with _ | ⟨q, tl⟩
    · rfl
    · exfalso
      have h1 : p.2.upper.isNone = true := by simp [hpu]
      have h2 : q.2.upper.isNone = true := by simp [hl2 q (by simp)]
      rw [List.countP_append, List.countP_cons, List.countP_cons, h1, h2,
        show (if true = true then (1 : ℕ) else 0) = 1 from rfl] at hcs
      omega
  subst hl2nil
  refine ⟨l1, hdec, ?_⟩
  intro q hq hqu
  have h1 : p.2.upper.isNone = true := by simp [hpu]
  have hcl1 : l1.countP (fun q => q.2.upper.isNone) = 0 := by
    rw [List.countP_append, List.countP_cons, h1,
      show (if true = true then (1 : ℕ) else 0) = 1 from rfl] at hcs
    omega
  have := List.countP_eq_zero.mp hcl1 q hq
  simp [hqu] at this

end ContractLoader
namespace ContractLoader

/-- Witness: unlimited_tier_sorts_last on the two-tier row, naming the
unlimited tier as the last element of the creation order. -/
theorem unlimited_tier_sorts_last_witness :
    (build_canonical_tiers_from_row rowTwoTier argsX).countP (fun t => t.upper.isNone) ≤ 1 ∧
    ∃ l, tiersForCreation (build_canonical_tiers_from_row rowTwoTier argsX) =
        l ++ [((1 : ℕ), (⟨100 + TIER_INCREMENT, none, 3⟩ : Tier))] ∧
      ∀ q ∈ l, q.2.upper ≠ none := by
  have hl : build_canonical_tiers_from_row rowTwoTier argsX =
      [⟨0, some 100, 5⟩, ⟨100 + TIER_INCREMENT, none, 3⟩] := by
    norm_num +decide [build_canonical_tiers_from_row, parse_structured_pricing_tiers,
      structSlots, slotStep, lowerCellParsed, upperCellParsed, slotLower, cell, tierKey,
      pyStrip, pyStripL, dropTrailing, pyIsSpace, pyParseDecimal?, parseDecimalCore?,
      splitOnChar, digitsToNat, digitVal, TIER_INCREMENT, UNLIMITED_TIER_SENTINEL, quantize10,
      roundHalfEven, rowTwoTier, argsX, List.range', asString_toList, asString_data]
  refine ⟨(unlimited_tier_sorts_last rowTwoTier argsX).1, ?_⟩
  refine (unlimited_tier_sorts_last rowTwoTier argsX).2
    (1, ⟨100 + TIER_INCREMENT, none, 3⟩) ?_ rfl
  rw [hl, tiersForCreation]
  exact ((List.mergeSort_perm _ _).mem_iff).mpr (by simp [List.enum, List.enumFrom])

end ContractLoader
namespace ContractLoader

/-- A prefix of tiers that neither break (no inverted bounds) nor hit the
existing index is emitted payload-for-payload ahead of the rest. -/
theorem processTiers_all_emit {α : Type} (currency rid effIso : String)
    (endIso : Option String) (f : String × ℚ × Option ℚ → Option α)
    (pre : List (ℕ × Tier))
    (hgood : ∀ p ∈ pre, ∀ u, p.2.upper = some u → ¬ u < p.2.lower)
    (hmiss : ∀ p ∈ pre, f (currency, p.2.lower, p.2.upper) = none) :
    ∀ rest, processTiers currency rid effIso endIso (some f) (pre ++ rest) =
      ((pre.map fun p => entryOf currency rid effIso endIso p.2) ++
        (processTiers currency rid effIso endIso (some f) rest).1,
       (processTiers currency rid effIso endIso (some f) rest).2) := by
  induction pre with
  | nil => intro rest; simp
  | cons p pre' ih =>
    intro rest
    obtain ⟨n, t⟩ := p
    have hbreak : (match t.upper with
        | none => false
        | some u => decide (u < t.lower)) = false := by
      cases hu : t.upper with
      | none => rfl
      | some u => simpa using hgood (n, t) (by simp) u hu
    have hf : f (currency, t.lower, t.upper) = none := hmiss (n, t) (by simp)
    simp only [List.cons_append, processTiers, hbreak, hf, List.append_eq]
    rw [ih (fun q hq => hgood q (by simp [hq])) (fun q hq => hmiss q (by simp [hq])) rest]
    simp

/-- A tier whose key is in the existing index is skipped: no payload, one
skipped-existing record, and the rest still processed. -/
theorem processTiers_skip {α : Type} (currency rid effIso : String)
    (endIso : Option String) (f : String × ℚ × Option ℚ → Option α)
    (n : ℕ) (t : Tier) (e : α)
    (hgood : ∀ u, t.upper = some u → ¬ u < t.lower)
    (hhit : f (currency, t.lower, t.upper) = some e) :
    ∀ rest, processTiers currency rid effIso endIso (some f) ((n, t) :: rest) =
      ((processTiers currency rid effIso endIso (some f) rest).1,
       ⟨e⟩ :: (processTiers currency rid effIso endIso (some f) rest).2) := by
  intro rest
  have hbreak : (match t.upper with
      | none => false
      | some u => decide (u < t.lower)) = false := by
    cases hu : t.upper with
    | none => rfl
    | some u => simpa using hgood u hu
  simp only [processTiers, hbreak, hhit]

/-- C5: with an existing-period index hitting exactly the key of one tier of
the row's creation order, building payloads for that row emits a payload for
every other tier, emits none for the matched tier, and records exactly one
skipped-existing entry. -/
theorem dedup_skips_existing_tier {α : Type} (contractRateId currencyCode : String)
    (row : Row) (args : Args) (today : PyDate) (fallbackStartDate : Option PyDate)
    (f : String × ℚ × Option ℚ → Option α) (e : α)
    (pre post : List (ℕ × Tier)) (n : ℕ) (t : Tier)
    (hdec : tiersForCreation (build_canonical_tiers_from_row row args) = pre ++ (n, t) :: post)
    (hhit : f (currencyCode, t.lower, t.upper) = some e)
    (hmiss : ∀ p ∈ pre ++ post, f (currencyCode, p.2.lower, p.2.upper) = none)
    (hgood : ∀ p ∈ pre ++ (n, t) :: post, ∀ u, p.2.upper = some u → ¬ u < p.2.lower) :
    build_pricing_payloads_from_rows contractRateId currencyCode [row] args today
        fallbackStartDate (some f) =
      ((pre ++ post).map fun p =>
        entryOf currencyCode contractRateId
          (isoMidnight (rowEffectiveDate args today fallbackStartDate row))
          ((parse_optional_date (row args.end_date_column)).map isoMidnight) p.2,
       build_canonical_tiers_from_row row args, [⟨e⟩]) := by
  have hne : build_canonical_tiers_from_row row args ≠ [] := by
    intro h0
    rw [h0] at hdec
    have := List.mergeSort_perm (([] : List Tier).enum) creationLE
    rw [show tiersForCreation ([] : List Tier) =
      (([] : List Tier).enum).mergeSort creationLE from rfl] at hdec
    simp at hdec
  have hrun : processTiers currencyCode contractRateId
      (isoMidnight (rowEffectiveDate args today fallbackStartDate row))
      ((parse_optional_date (row args.end_date_column)).map isoMidnight) (some f)
      (tiersForCreation (build_canonical_tiers_from_row row args)) =
      ((pre ++ post).map fun p =>
        entryOf currencyCode contractRateId
          (isoMidnight (rowEffectiveDate args today fallbackStartDate row))
          ((parse_optional_date (row args.end_date_column)).map isoMidnight) p.2,
       [⟨e⟩]) := by
    rw [hdec]
    rw [processTiers_all_emit _ _ _ _ f pre
      (fun q hq => hgood q (by simp [hq]))
      (fun q hq => hmiss q (by simp [hq])) ((n, t) :: post)]
    rw [processTiers_skip _ _ _ _ f n t e
      (fun u hu => hgood (n, t) (by simp) u hu) hhit post]
    rw [show post = post ++ [] from by simp]
    rw [processTiers_all_emit _ _ _ _ f post
      (fun q hq => hgood q (by simp [hq]))
      (fun q hq => hmiss q (by simp [hq])) []]
    simp [processTiers]
  simp only [build_pricing_payloads_from_rows, buildRowsLoop, hrun]
  simp [hne]

end ContractLoader
namespace ContractLoader

/-- Witness: dedup_skips_existing_tier on the two-tier row with the bounded
tier already present in the index: only the unlimited tier's payload is
emitted and exactly one skipped-existing entry is recorded. -/
theorem dedup_skips_existing_tier_witness :
    build_pricing_payloads_from_rows "CR1" "USD" [rowTwoTier] argsX ⟨2025, 1, 15⟩ none
        (some indexUSD) =
      (([((1 : ℕ), (⟨100 + TIER_INCREMENT, none, 3⟩ : Tier))]).map fun p =>
        entryOf "USD" "CR1"
          (isoMidnight (rowEffectiveDate argsX ⟨2025, 1, 15⟩ none rowTwoTier))
          ((parse_optional_date (rowTwoTier argsX.end_date_column)).map isoMidnight) p.2,
       build_canonical_tiers_from_row rowTwoTier argsX, [⟨"E1"⟩]) := by
  refine dedup_skips_existing_tier "CR1" "USD" rowTwoTier argsX ⟨2025, 1, 15⟩ none indexUSD
    "E1" [] [(1, ⟨100 + TIER_INCREMENT, none, 3⟩)] 0 ⟨0, some 100, 5⟩ ?_ ?_ ?_ ?_
  · have hl : build_canonical_tiers_from_row rowTwoTier argsX =
        [⟨0, some 100, 5⟩, ⟨100 + TIER_INCREMENT, none, 3⟩] := by
      norm_num +decide [build_canonical_tiers_from_row, parse_structured_pricing_tiers,
        structSlots, slotStep, lowerCellParsed, upperCellParsed, slotLower, cell, tierKey,
        pyStrip, pyStripL, dropTrailing, pyIsSpace, pyParseDecimal?, parseDecimalCore?,
        splitOnChar, digitsToNat, digitVal, TIER_INCREMENT, UNLIMITED_TIER_SENTINEL,
        quantize10, roundHalfEven, rowTwoTier, argsX, List.range', asString_toList,
        asString_data]
    rw [hl, tiersForCreation]
    rw [show (([⟨0, some 100, 5⟩, ⟨100 + TIER_INCREMENT, none, 3⟩] : List Tier).enum) =
      [(0, ⟨0, some 100, 5⟩), (1, ⟨100 + TIER_INCREMENT, none, 3⟩)] from by
        simp [List.enum, List.enumFrom]]
    rw [List.mergeSort_of_sorted ?_]
    · simp
    · refine List.Pairwise.cons ?_ (List.pairwise_singleton _ _)
      intro b hb
      simp only [List.mem_singleton] at hb
      subst hb
      simp [creationLE]
  · simp [indexUSD]
  · intro p hp
    simp only [List.nil_append, List.mem_singleton] at hp
    subst hp
    simp [indexUSD]
  · intro p hp u hu
    simp only [List.nil_append, List.mem_cons, List.not_mem_nil, or_false] at hp
    rcases hp with hp | hp <;> subst hp
    · have hu' : some (100 : ℚ) = some u := hu
      injection hu' with hu2
      subst hu2
      norm_num
    · exact Option.noConfusion hu

end ContractLoader
namespace ContractLoader

/-- Every payload emitted by the per-tier loop has an unlimited band of "-1"
or bands formatted from a lower/upper pair with lower <= upper. -/
theorem processTiers_bands {α : Type} (currency rid effIso : String)
    (endIso : Option String) (index? : Option (String × ℚ × Option ℚ → Option α)) :
    ∀ ts : List (ℕ × Tier), ∀ p ∈ (processTiers currency rid effIso endIso index? ts).1,
      p.UpperBand = "-1" ∨
        ∃ l u : ℚ, l ≤ u ∧ p.LowerBand = format_decimal l ∧ p.UpperBand = format_decimal u := by
  intro ts
  induction ts with
  | nil => intro p hp; simp [processTiers] at hp
  | cons q rest ih =>
    obtain ⟨n, t⟩ := q
    intro p hp
    cases hbreak : (match t.upper with
        | none => false
        | some u => decide (u < t.lower)) with
    | true =>
      have hstep : processTiers currency rid effIso endIso index? ((n, t) :: rest) =
          ([], []) := by
        simp only [processTiers, hbreak]
      rw [hstep] at hp
      simp at hp
    | false =>
      cases hidx : (match index? with
          | some f => f (currency, t.lower, t.upper)
          | none => none) with
      | some e =>
        have hstep : processTiers currency rid effIso endIso index? ((n, t) :: rest) =
            ((processTiers currency rid effIso endIso index? rest).1,
             ⟨e⟩ :: (processTiers currency rid effIso endIso index? rest).2) := by
          simp only [processTiers, hbreak, hidx]
        rw [hstep] at hp
        exact ih p hp
      | none =>
        have hstep : processTiers currency rid effIso endIso index? ((n, t) :: rest) =
            (entryOf currency rid effIso endIso t ::
              (processTiers currency rid effIso endIso index? rest).1,
             (processTiers currency rid effIso endIso index? rest).2) := by
          simp only [processTiers, hbreak, hidx]
        rw [hstep] at hp
        simp only [List.mem_cons] at hp
        rcases hp with rfl | hp
        · cases hu : t.upper with
          | none => exact Or.inl (by simp [entryOf, hu])
          | some u =>
            refine Or.inr ⟨t.lower, u, ?_, rfl, by simp [entryOf, hu]⟩
            rw [hu] at hbreak
            simpa using hbreak
        · exact ih p hp

/-- An inverted bounded tier stops the per-tier loop: the tiers after it in
the same row contribute nothing, and the result is exactly that of the
well-formed prefix. -/
theorem processTiers_break {α : Type} (currency rid effIso : String)
    (endIso : Option String) (index? : Option (String × ℚ × Option ℚ → Option α))
    (t : Tier) (u : ℚ) (hu : t.upper = some u) (hinv : u < t.lower) :
    ∀ pre, (∀ p ∈ pre, ∀ v : ℚ, p.2.upper = some v → ¬ v < p.2.lower) →
    ∀ (n : ℕ) (post : List (ℕ × Tier)),
      processTiers currency rid effIso endIso index? (pre ++ (n, t) :: post) =
        processTiers currency rid effIso endIso index? pre := by
  intro pre
  induction pre with
  | nil =>
    intro _ n post
    have hbreak : (match t.upper with
        | none => false
        | some v => decide (v < t.lower)) = true := by
      rw [hu]; simpa using hinv
    simp only [List.nil_append, processTiers, hbreak]
  | cons q pre' ih =>
    intro hgood n post
    obtain ⟨m, a⟩ := q
    have hbreak : (match a.upper with
        | none => false
        | some v => decide (v < a.lower)) = false := by
      cases hv : a.upper with
      | none => rfl
      | some v => simpa using hgood (m, a) (by simp) v hv
    cases hidx : (match index? with
        | some f => f (currency, a.lower, a.upper)
        | none => none) with
    | some e =>
      simp only [List.cons_append, processTiers, hbreak, hidx, List.append_eq]
      rw [ih (fun q hq => hgood q (by simp [hq])) n post]
    | none =>
      simp only [List.cons_append, processTiers, hbreak, hidx, List.append_eq]
      rw [ih (fun q hq => hgood q (by simp [hq])) n post]

/-- The per-row loop distributes over row concatenation: a break inside one
row never affects the rows after it. -/
theorem buildRowsLoop_append {α : Type} (rid currency : String) (args : Args)
    (today : PyDate) (fallbackStart : Option PyDate)
    (index? : Option (String × ℚ × Option ℚ → Option α)) :
    ∀ (rows₁ rows₂ : List Row) (last : List Tier),
      buildRowsLoop rid currency args today fallbackStart index? (rows₁ ++ rows₂) last =
        ((buildRowsLoop rid currency args today fallbackStart index? rows₁ last).1 ++
          (buildRowsLoop rid currency args today fallbackStart index? rows₂
            (buildRowsLoop rid currency args today fallbackStart index? rows₁ last).2.1).1,
         (buildRowsLoop rid currency args today fallbackStart index? rows₂
            (buildRowsLoop rid currency args today fallbackStart index? rows₁ last).2.1).2.1,
         (buildRowsLoop rid currency args today fallbackStart index? rows₁ last).2.2 ++
          (buildRowsLoop rid currency args today fallbackStart index? rows₂
            (buildRowsLoop rid currency args today fallbackStart index? rows₁ last).2.1).2.2) := by
  intro rows₁
  induction rows₁ with
  | nil => intro rows₂ last; simp [buildRowsLoop]
  | cons row rest ih =>
    intro rows₂ last
    simp only [List.cons_append, buildRowsLoop, List.append_eq]
    rw [ih rows₂]
    simp [List.append_assoc]

/-- C10: every emitted create-payload has UpperBand "-1" or bands formatted
from a pair with upper >= lower; an inverted bounded tier aborts only the
remaining tiers of its own row; and rows are processed independently, so
later rows of the group still run. -/
theorem payload_bands_and_row_isolation :
    (∀ (α : Type) (currency rid effIso : String) (endIso : Option String)
        (index? : Option (String × ℚ × Option ℚ → Option α)) (ts : List (ℕ × Tier)),
      ∀ p ∈ (processTiers currency rid effIso endIso index? ts).1,
        p.UpperBand = "-1" ∨
          ∃ l u : ℚ, l ≤ u ∧ p.LowerBand = format_decimal l ∧
            p.UpperBand = format_decimal u) ∧
    (∀ (α : Type) (currency rid effIso : String) (endIso : Option String)
        (index? : Option (String × ℚ × Option ℚ → Option α)) (t : Tier) (u : ℚ),
      t.upper = some u → u < t.lower →
      ∀ pre, (∀ p ∈ pre, ∀ v : ℚ, p.2.upper = some v → ¬ v < p.2.lower) →
      ∀ (n : ℕ) (post : List (ℕ × Tier)),
        processTiers currency rid effIso endIso index? (pre ++ (n, t) :: post) =
          processTiers currency rid effIso endIso index? pre) ∧
    (∀ (α : Type) (rid currency : String) (args : Args) (today : PyDate)
        (fallbackStart : Option PyDate)
        (index? : Option (String × ℚ × Option ℚ → Option α))
        (rows₁ rows₂ : List Row) (last : List Tier),
      buildRowsLoop rid currency args today fallbackStart index? (rows₁ ++ rows₂) last =
        ((buildRowsLoop rid currency args today fallbackStart index? rows₁ last).1 ++
          (buildRowsLoop rid currency args today fallbackStart index? rows₂
            (buildRowsLoop rid currency args today fallbackStart index? rows₁ last).2.1).1,
         (buildRowsLoop rid currency args today fallbackStart index? rows₂
            (buildRowsLoop rid currency args today fallbackStart index? rows₁ last).2.1).2.1,
         (buildRowsLoop rid currency args today fallbackStart index? rows₁ last).2.2 ++
          (buildRowsLoop rid currency args today fallbackStart index? rows₂
            (buildRowsLoop rid currency args today fallbackStart index? rows₁ last).2.1).2.2)) :=
  ⟨fun α currency rid effIso endIso index? ts =>
      processTiers_bands (α := α) currency rid effIso endIso index? ts,
   fun α currency rid effIso endIso index? t u hu hinv =>
      processTiers_break (α := α) currency rid effIso endIso index? t u hu hinv,
   fun α rid currency args today fallbackStart index? rows₁ rows₂ last =>
      buildRowsLoop_append (α := α) rid currency args today fallbackStart index?
        rows₁ rows₂ last⟩

/-- Witness: the inverted tier (lower 5, upper 3) aborts its row, leaving the
trace of the empty prefix. -/
theorem payload_bands_and_row_isolation_witness :
    processTiers (α := Unit) "USD" "CR1" "E" none none
        ([] ++ ((0 : ℕ), (⟨5, some 3, 7⟩ : Tier)) :: [((1 : ℕ), (⟨0, some 1, 2⟩ : Tier))]) =
      processTiers (α := Unit) "USD" "CR1" "E" none none [] :=
  payload_bands_and_row_isolation.2.1 Unit "USD" "CR1" "E" none none
    ⟨5, some 3, 7⟩ 3 rfl (by norm_num) [] (by simp) 0 [(1, ⟨0, some 1, 2⟩)]

end ContractLoader
namespace ContractLoader

/-- C2: with both remote calls succeeding, a price-change group whose first
row's effective date parses to d issues exactly the spec's splice trace:
shorten the active period (end date only, to d minus one day) when its
effective date is strictly before d, delete every period effective on or
after d, then create the payloads rebuilt from the group's rows with no
existing-period deduplication. -/
theorem price_change_splice (contractRateId currencyCode : String)
    (firstRow : Row) (rest : List Row) (args : Args) (today : PyDate)
    (existing : List RemoteRec) (d : PyDate)
    (hd : parse_iso_to_date
        (pyOr (firstRow args.effective_date_column) (firstRow args.start_date_column)) =
      some d) :
    apply_price_changes_to_contract_rate contractRateId currencyCode (firstRow :: rest) args
        today existing ⟨true, true⟩ =
      specPriceChangeTrace contractRateId currencyCode (firstRow :: rest) args today d
        existing := by
  have htail : priceChangeTail contractRateId currencyCode (firstRow :: rest) args today
      existing d ⟨true, true⟩ =
      (if supersededIds d existing = [] then []
       else [LedgerAction.deleteBatch (supersededIds d existing)]) ++
      (if (build_pricing_payloads_from_rows (α := Unit) contractRateId currencyCode
            (firstRow :: rest) args today (some d) none).1 = [] then []
       else [LedgerAction.createBatch
          ((build_pricing_payloads_from_rows (α := Unit) contractRateId currencyCode
            (firstRow :: rest) args today (some d) none).1)]) := by
    simp only [priceChangeTail, Bool.not_true, Bool.and_false, Bool.false_eq_true, if_false,
      ne_eq, ite_not]
  have hshort : (match existing.find? (isActiveAt d) with
      | some active =>
        match recEff active with
        | some eff =>
          if dateLT eff d then
            [LedgerAction.shorten (recId active) (isoMidnight (predDay d))]
          else []
        | none => []
      | none => []) = (shortenStep existing d).toList := by
    unfold shortenStep
    cases hfind : existing.find? (isActiveAt d) with
    | none => rfl
    | some cur =>
      cases heff : recEff cur with
      | none => simp [heff]
      | some eff =>
        by_cases hlt : dateLT eff d = true
        · simp [heff, hlt]
        · simp [heff, hlt]
  simp only [apply_price_changes_to_contract_rate, hd, specPriceChangeTrace, hshort]
  cases hs : shortenStep existing d with
  | none => simp [htail]
  | some act => simp [htail]

end ContractLoader
namespace ContractLoader

/-- Witness: price_change_splice on the 2025-03-01 amendment over the open
period P1 (effective 2025-01-01, no end) and the future period P2 (effective
2025-04-01): P1 is shortened to end 2025-02-28, P2 is deleted, and the new
unlimited tier is created from the amendment row. -/
theorem price_change_splice_witness :
    apply_price_changes_to_contract_rate "CR1" "USD" [rowAmend] argsX ⟨2025, 6, 1⟩
        [recP1, recP2] ⟨true, true⟩ =
      specPriceChangeTrace "CR1" "USD" [rowAmend] argsX ⟨2025, 6, 1⟩ ⟨2025, 3, 1⟩
        [recP1, recP2] ∧
    specPriceChangeTrace "CR1" "USD" [rowAmend] argsX ⟨2025, 6, 1⟩ ⟨2025, 3, 1⟩
        [recP1, recP2] =
      [LedgerAction.shorten (some "P1") "2025-02-28T00:00:00.000Z",
       LedgerAction.deleteBatch ["P2"],
       LedgerAction.createBatch
         [⟨"USD", "CR1", "2025-03-01T00:00:00.000Z", "0", "-1", "5", "0", none⟩]] := by
  constructor
  · exact price_change_splice "CR1" "USD" rowAmend [] argsX ⟨2025, 6, 1⟩ [recP1, recP2]
      ⟨2025, 3, 1⟩ (by decide)
  · have hact : isActiveAt ⟨2025, 3, 1⟩ recP1 = true := by decide
    have hfind : List.find? (isActiveAt ⟨2025, 3, 1⟩) [recP1, recP2] = some recP1 := by
      simp [List.find?, hact]
    have hrecEff : recEff recP1 = some ⟨2025, 1, 1⟩ := by decide
    have hlt : dateLT ⟨2025, 1, 1⟩ ⟨2025, 3, 1⟩ = true := by decide
    have hids : supersededIds ⟨2025, 3, 1⟩ [recP1, recP2] = ["P2"] := by decide
    have hrecId : recId recP1 = some "P1" := by decide
    have hpred : predDay ⟨2025, 3, 1⟩ = ⟨2025, 2, 28⟩ := by decide
    have hiso : isoMidnight ⟨2025, 2, 28⟩ = "2025-02-28T00:00:00.000Z" := by decide
    have hladder : build_canonical_tiers_from_row rowAmend argsX = [⟨0, none, 5⟩] := by
      norm_num +decide [build_canonical_tiers_from_row, parse_structured_pricing_tiers,
        structSlots, slotStep, lowerCellParsed, upperCellParsed, slotLower, cell, tierKey,
        pyStrip, pyStripL, dropTrailing, pyIsSpace, pyParseDecimal?, parseDecimalCore?,
        splitOnChar, digitsToNat, digitVal, TIER_INCREMENT, UNLIMITED_TIER_SENTINEL,
        quantize10, roundHalfEven, rowAmend, argsX, List.range', asString_toList,
        asString_data]
    have heffdate : rowEffectiveDate argsX ⟨2025, 6, 1⟩ (some ⟨2025, 3, 1⟩) rowAmend =
        ⟨2025, 3, 1⟩ := by decide
    have hps : (build_pricing_payloads_from_rows (α := Unit) "CR1" "USD" [rowAmend] argsX
        ⟨2025, 6, 1⟩ (some ⟨2025, 3, 1⟩) none).1 =
        [⟨"USD", "CR1", "2025-03-01T00:00:00.000Z", "0", "-1", "5", "0", none⟩] := by
      simp only [build_pricing_payloads_from_rows, buildRowsLoop, hladder, heffdate]
      rw [show tiersForCreation [(⟨0, none, 5⟩ : Tier)] = [(0, ⟨0, none, 5⟩)] from
        List.mergeSort_singleton _]
      decide
    simp only [specPriceChangeTrace, hfind, hrecEff, hlt, hids, hrecId, hpred, hiso, hps]
    simp

end ContractLoader
namespace ContractLoader

/-- Any action produced by the shorten step is a shorten action. -/
theorem shortenStep_shape (existing : List RemoteRec) (d : PyDate) (act : LedgerAction)
    (h : shortenStep existing d = some act) : ∃ i e, act = LedgerAction.shorten i e := by
  unfold shortenStep at h
  rcases hfind : existing.find? (isActiveAt d) with _ | cur
  · rw [hfind] at h
    exact absurd h (by simp)
  · rw [hfind] at h
    have h' : (match recEff cur with
        | some eff =>
          if dateLT eff d = true then
            some (LedgerAction.shorten (recId cur) (isoMidnight (predDay d)))
          else none
        | none => none) = some act := h
    rcases heff : recEff cur with _ | eff <;> rw [heff] at h'
    · simp at h'
    · have h2 : (if dateLT eff d = true then
          some (LedgerAction.shorten (recId cur) (isoMidnight (predDay d))) else none) =
          some act := h'
      by_cases hlt : dateLT eff d = true
      · rw [if_pos hlt] at h2
        injection h2 with h3
        exact ⟨recId cur, isoMidnight (predDay d), h3.symm⟩
      · rw [if_neg hlt] at h2
        simp at h2

/-- Decomposition of the delete-then-create tail: an optional delete batch
followed by an optional create batch, and a failed delete cuts the create. -/
theorem priceChangeTail_decomp (contractRateId currencyCode : String)
    (rowsForGroup : List Row) (args : Args) (today : PyDate)
    (existing : List RemoteRec) (d : PyDate) (outcome : RemoteOutcome) :
    ∃ D C : List LedgerAction,
      priceChangeTail contractRateId currencyCode rowsForGroup args today existing d outcome =
        D ++ C ∧
      (D = [] ∨ ∃ ids, D = [LedgerAction.deleteBatch ids]) ∧
      (C = [] ∨ ∃ ps, C = [LedgerAction.createBatch ps]) ∧
      (outcome.deleteOk = false → D ≠ [] → C = []) := by
  by_cases h : (supersededIds d existing ≠ [] && !outcome.deleteOk) = true
  · refine ⟨[LedgerAction.deleteBatch (supersededIds d existing)], [], ?_,
      Or.inr ⟨_, rfl⟩, Or.inl rfl, fun _ _ => rfl⟩
    simp only [priceChangeTail]
    rw [if_pos h]
    simp
  · refine ⟨(if supersededIds d existing = [] then []
        else [LedgerAction.deleteBatch (supersededIds d existing)]),
      (if (build_pricing_payloads_from_rows (α := Unit) contractRateId currencyCode
            rowsForGroup args today (some d) none).1 ≠ [] then
        [LedgerAction.createBatch
          ((build_pricing_payloads_from_rows (α := Unit) contractRateId currencyCode
            rowsForGroup args today (some d) none).1)]
       else []), ?_, ?_, ?_, ?_⟩
    · simp only [priceChangeTail]
      rw [if_neg h]
    · by_cases hc : supersededIds d existing = []
      · rw [if_pos hc]; exact Or.inl rfl
      · rw [if_neg hc]; exact Or.inr ⟨_, rfl⟩
    · by_cases hc : (build_pricing_payloads_from_rows (α := Unit) contractRateId currencyCode
          rowsForGroup args today (some d) none).1 = []
      · rw [if_neg (by simp [hc])]; exact Or.inl rfl
      · rw [if_pos (by simp [hc])]; exact Or.inr ⟨_, rfl⟩
    · intro hdel hD
      exfalso
      apply h
      rcases hids : supersededIds d existing with _ | ⟨x, xs⟩
      · rw [hids] at hD
        simp at hD
      · simp [hids, hdel]

/-- Full decomposition of the price-change trace: an optional shorten, then
an optional delete, then an optional create; a failed shorten cuts delete and
create, a failed delete cuts create. -/
theorem apply_price_changes_decomp (contractRateId currencyCode : String)
    (rowsForGroup : List Row) (args : Args) (today : PyDate)
    (existing : List RemoteRec) (outcome : RemoteOutcome) :
    ∃ S D C : List LedgerAction,
      apply_price_changes_to_contract_rate contractRateId currencyCode rowsForGroup args
        today existing outcome = S ++ D ++ C ∧
      (S = [] ∨ ∃ i e, S = [LedgerAction.shorten i e]) ∧
      (D = [] ∨ ∃ ids, D = [LedgerAction.deleteBatch ids]) ∧
      (C = [] ∨ ∃ ps, C = [LedgerAction.createBatch ps]) ∧
      (outcome.shortenOk = false → S ≠ [] → D = [] ∧ C = []) ∧
      (outcome.deleteOk = false → D ≠ [] → C = []) := by
  cases rowsForGroup with
  | nil =>
    exact ⟨[], [], [], by simp [apply_price_changes_to_contract_rate], Or.inl rfl,
      Or.inl rfl, Or.inl rfl, by simp, by simp⟩
  | cons firstRow rest =>
    cases hpd : parse_iso_to_date
        (pyOr (firstRow args.effective_date_column) (firstRow args.start_date_column)) with
    | none =>
      exact ⟨[], [], [], by simp [apply_price_changes_to_contract_rate, hpd], Or.inl rfl,
        Or.inl rfl, Or.inl rfl, by simp, by simp⟩
    | some d =>
      obtain ⟨D, C, htl, hD, hC, hDC⟩ := priceChangeTail_decomp contractRateId currencyCode
        (firstRow :: rest) args today existing d outcome
      cases hss : shortenStep existing d with
      | none =>
        refine ⟨[], D, C, ?_, Or.inl rfl, hD, hC, by simp, hDC⟩
        simp [apply_price_changes_to_contract_rate, hpd, hss, htl]
      | some act =>
        by_cases hOk : outcome.shortenOk = true
        · refine ⟨[act], D, C, ?_, Or.inr (by
              obtain ⟨i, e, hh⟩ := shortenStep_shape existing d act hss
              exact ⟨i, e, by rw [hh]⟩), hD, hC, ?_, hDC⟩
          · simp [apply_price_changes_to_contract_rate, hpd, hss, hOk, htl]
          · intro hfalse
            rw [hOk] at hfalse
            cases hfalse
        · refine ⟨[act], [], [], ?_, Or.inr (by
              obtain ⟨i, e, hh⟩ := shortenStep_shape existing d act hss
              exact ⟨i, e, by rw [hh]⟩),
            Or.inl rfl, Or.inl rfl, fun _ _ => ⟨rfl, rfl⟩, by simp⟩
          simp only [Bool.not_eq_true] at hOk
          simp [apply_price_changes_to_contract_rate, hpd, hss, hOk]

/-- C6: in the price-change flow, a shorten call that fails aborts the group
before any create (and any delete) is issued, a delete call that fails aborts
before any create is issued, and any create call is the last action of the
trace, after the shorten and delete steps. -/
theorem splice_aborts_before_create (contractRateId currencyCode : String)
    (rowsForGroup : List Row) (args : Args) (today : PyDate)
    (existing : List RemoteRec) (outcome : RemoteOutcome) :
    (∀ i e ps, LedgerAction.shorten i e ∈
        apply_price_changes_to_contract_rate contractRateId currencyCode rowsForGroup args
          today existing outcome →
      outcome.shortenOk = false →
      LedgerAction.createBatch ps ∉
        apply_price_changes_to_contract_rate contractRateId currencyCode rowsForGroup args
          today existing outcome) ∧
    (∀ ids ps, LedgerAction.deleteBatch ids ∈
        apply_price_changes_to_contract_rate contractRateId currencyCode rowsForGroup args
          today existing outcome →
      outcome.deleteOk = false →
      LedgerAction.createBatch ps ∉
        apply_price_changes_to_contract_rate contractRateId currencyCode rowsForGroup args
          today existing outcome) ∧
    (∀ ps, LedgerAction.createBatch ps ∈
        apply_price_changes_to_contract_rate contractRateId currencyCode rowsForGroup args
          today existing outcome →
      ∃ pre, apply_price_changes_to_contract_rate contractRateId currencyCode rowsForGroup
          args today existing outcome = pre ++ [LedgerAction.createBatch ps] ∧
        ∀ a ∈ pre, ∀ qs, a ≠ LedgerAction.createBatch qs) := by
  obtain ⟨S, D, C, htr, hS, hD, hC, hSfail, hDfail⟩ := apply_price_changes_decomp
    contractRateId currencyCode rowsForGroup args today existing outcome
  refine ⟨?_, ?_, ?_⟩
  · intro i e ps hmem hfail hcreate
    rw [htr] at hmem hcreate
    simp only [List.append_assoc, List.mem_append] at hmem hcreate
    have hSne : S ≠ [] := by
      rcases hmem with hm | hm | hm
      · exact List.ne_nil_of_mem hm
      · rcases hD with rfl | ⟨ids, rfl⟩
        · simp at hm
        · simp at hm
      · rcases hC with rfl | ⟨qs, rfl⟩
        · simp at hm
        · simp at hm
    obtain ⟨hDnil, hCnil⟩ := hSfail hfail hSne
    subst hDnil hCnil
    rcases hS with rfl | ⟨i', e', rfl⟩
    · simp at hcreate
    · simp at hcreate
  · intro ids ps hmem hfail hcreate
    rw [htr] at hmem hcreate
    simp only [List.append_assoc, List.mem_append] at hmem hcreate
    have hDne : D ≠ [] := by
      rcases hmem with hm | hm | hm
      · rcases hS with rfl | ⟨i', e', rfl⟩
        · simp at hm
        · simp at hm
      · exact List.ne_nil_of_mem hm
      · rcases hC with rfl | ⟨qs, rfl⟩
        · simp at hm
        · simp at hm
    have hCnil := hDfail hfail hDne
    subst hCnil
    rcases hS with rfl | ⟨i', e', rfl⟩ <;> rcases hD with rfl | ⟨ids', rfl⟩ <;> simp at hcreate
  · intro ps hmem
    rw [htr] at hmem
    simp only [List.append_assoc, List.mem_append] at hmem
    rcases hC with rfl | ⟨qs, rfl⟩
    · exfalso
      rcases hmem with hm | hm | hm
      · rcases hS with rfl | ⟨i', e', rfl⟩
        · simp at hm
        · simp at hm
      · rcases hD with rfl | ⟨ids', rfl⟩
        · simp at hm
        · simp at hm
      · simp at hm
    · have hqs : qs = ps := by
        rcases hmem with hm | hm | hm
        · exfalso
          rcases hS with rfl | ⟨i', e', rfl⟩
          · simp at hm
          · simp at hm
        · exfalso
          rcases hD with rfl | ⟨ids', rfl⟩
          · simp at hm
          · simp at hm
        · simp only [List.mem_singleton, LedgerAction.createBatch.injEq] at hm
          exact hm.symm
      subst hqs
      refine ⟨S ++ D, by rw [htr], ?_⟩
      intro a ha qs2
      simp only [List.mem_append] at ha
      rcases ha with ha | ha
      · rcases hS with rfl | ⟨i', e', rfl⟩
        · simp at ha
        · simp only [List.mem_singleton] at ha
          subst ha
          simp
      · rcases hD with rfl | ⟨ids', rfl⟩
        · simp at ha
        · simp only [List.mem_singleton] at ha
          subst ha
          simp

/-- Witness: splice_aborts_before_create with a failing shorten call: the
trace is the lone shorten action and no create is issued. -/
theorem splice_aborts_before_create_witness :
    LedgerAction.createBatch ([] : List PricingEntry) ∉
      apply_price_changes_to_contract_rate "CR1" "USD" [rowAmend] argsX ⟨2025, 6, 1⟩
        [recP1] ⟨false, true⟩ :=
  (splice_aborts_before_create "CR1" "USD" [rowAmend] argsX ⟨2025, 6, 1⟩ [recP1]
      ⟨false, true⟩).1 (some "P1") "2025-02-28T00:00:00.000Z" [] (by decide) rfl

end ContractLoader
namespace ContractLoader

/-- C8: the quantity handler submits no update when the resolved account
product's status is not ACTIVE, and any update it does submit carries a
modification-effective-date equal to the contract's start date from the
contract lookup (not any date of the row). -/
theorem quantity_change_guard (row : Row) (args : QArgs)
    (accountLookup : Option (List RemoteRec))
    (contractLookup : Option String × Option String)
    (productId? : Option String) (apRecords apDetails : List RemoteRec) :
    (∀ apDetail rest, apDetails = apDetail :: rest → apStatus apDetail ≠ "ACTIVE" →
      handle_quantity_change row args accountLookup contractLookup productId? apRecords
        apDetails = none) ∧
    (∀ p, handle_quantity_change row args accountLookup contractLookup productId? apRecords
        apDetails = some p → pyTruthy contractLookup.2 = some p.ContractModificationDate) := by
  constructor
  · intro apDetail rest hdet hstat
    subst hdet
    simp only [handle_quantity_change]
    repeat' split
    any_goals rfl
  · intro p hp
    simp only [handle_quantity_change] at hp
    repeat' split at hp
    all_goals first
      | (injection hp with h2; subst h2; dsimp only; assumption)
      | (refine absurd hp ?_; simp)

/-- Witness: quantity_change_guard on a CLOSED account product (no update)
and on an ACTIVE one (the update carries the contract's 2025-01-01 start
date). -/
theorem quantity_change_guard_witness :
    handle_quantity_change rowQty qargsX (some [recAcct]) (some "C1", some "2025-01-01")
        (some "PROD1") [apRec1] [apClosed] = none ∧
    pyTruthy ((some "C1", some "2025-01-01") : Option String × Option String).2 =
      some "2025-01-01" := by
  constructor
  · exact (quantity_change_guard rowQty qargsX (some [recAcct])
      (some "C1", some "2025-01-01") (some "PROD1") [apRec1] [apClosed]).1
      apClosed [] rfl (by decide)
  · exact (quantity_change_guard rowQty qargsX (some [recAcct])
      (some "C1", some "2025-01-01") (some "PROD1") [apRec1] [apActive]).2
      ⟨"AP1", 7, "2025-01-01"⟩ (by decide)


/-- Every character produced by digitChar is a decimal digit. -/
theorem digitChar_isDigit (d : ℕ) : (digitChar d).isDigit = true := by
  unfold digitChar
  repeat' split
  all_goals decide

/-- digitVal inverts digitChar on one-digit values. -/
theorem digitVal_digitChar (d : ℕ) (h : d < 10) : digitVal (digitChar d) = d := by
  interval_cases d <;> decide

/-- A decimal digit character is not a dot. -/
theorem ne_dot_of_isDigit {c : Char} (h : c.isDigit = true) : c ≠ '.' := by
  intro he; subst he; exact absurd h (by decide)

/-- A decimal digit character is not a minus sign. -/
theorem ne_minus_of_isDigit {c : Char} (h : c.isDigit = true) : c ≠ '-' := by
  intro he; subst he; exact absurd h (by decide)

/-- A decimal digit character is not a plus sign. -/
theorem ne_plus_of_isDigit {c : Char} (h : c.isDigit = true) : c ≠ '+' := by
  intro he; subst he; exact absurd h (by decide)

/-- Shifting lemma for the digit-accumulating fold. -/
theorem foldl_digits_shift (l : List Char) : ∀ a : ℕ,
    l.foldl (fun a c => 10 * a + digitVal c) a =
      a * 10 ^ l.length + l.foldl (fun a c => 10 * a + digitVal c) 0 := by
  induction l with
  | nil => intro a; simp
  | cons c l ih =>
    intro a
    simp only [List.foldl_cons, List.length_cons]
    rw [ih (10 * a + digitVal c), ih (10 * 0 + digitVal c)]
    ring

/-- digitsToNat distributes over append as base-10 concatenation. -/
theorem digitsToNat_append (l1 l2 : List Char) :
    digitsToNat (l1 ++ l2) = digitsToNat l1 * 10 ^ l2.length + digitsToNat l2 := by
  simp only [digitsToNat, List.foldl_append]
  exact foldl_digits_shift l2 (List.foldl (fun a c => 10 * a + digitVal c) 0 l1)

/-- The digits of n are never the empty list. -/
theorem natToDigits_ne_nil (n : ℕ) : natToDigits n ≠ [] := by
  rw [natToDigits_eq]
  split
  · simp
  · simp

/-- The digits of n are all decimal digit characters. -/
theorem natToDigits_all_digit (n : ℕ) : (natToDigits n).all Char.isDigit = true := by
  induction n using Nat.strong_induction_on with
  | _ n ih =>
    rw [natToDigits_eq]
    split
    · simp [digitChar_isDigit]
    · rename_i h
      have hlt : n / 10 < n := Nat.div_lt_self (by omega) (by omega)
      simp only [List.all_append, List.all_cons, List.all_nil, Bool.and_true]
      rw [ih (n / 10) hlt]
      simp [digitChar_isDigit]

/-- digitsToNat inverts natToDigits. -/
theorem digitsToNat_natToDigits (n : ℕ) : digitsToNat (natToDigits n) = n := by
  induction n using Nat.strong_induction_on with
  | _ n ih =>
    rw [natToDigits_eq]
    split
    · rename_i h
      simp only [digitsToNat, List.foldl_cons, List.foldl_nil]
      rw [digitVal_digitChar n h]
      omega
    · rename_i h
      have hlt : n / 10 < n := Nat.div_lt_self (by omega) (by omega)
      rw [digitsToNat_append, ih (n / 10) hlt]
      simp only [List.length_cons, List.length_nil, pow_one, digitsToNat, List.foldl_cons,
        List.foldl_nil]
      rw [digitVal_digitChar (n % 10) (Nat.mod_lt n (by omega))]
      omega

/-- Digit lists of numbers below 10^m (m positive) have at most m digits. -/
theorem natToDigits_length_le (n : ℕ) : ∀ m : ℕ, 1 ≤ m → n < 10 ^ m →
    (natToDigits n).length ≤ m := by
  induction n using Nat.strong_induction_on with
  | _ n ih =>
    intro m hm hlt
    rw [natToDigits_eq]
    split
    · simpa using hm
    · rename_i h
      have hd : n / 10 < n := Nat.div_lt_self (by omega) (by omega)
      have hm2 : 2 ≤ m := by
        by_contra hc
        have : m = 1 := by omega
        subst this
        simp at hlt
        omega
      have hdiv : n / 10 < 10 ^ (m - 1) := by
        have h10 : (10 : ℕ) ^ m = 10 * 10 ^ (m - 1) := by
          rw [← pow_succ']
          congr 1
          omega
        rw [h10] at hlt
        omega
      have := ih (n / 10) hd (m - 1) (by omega) hdiv
      simp only [List.length_append, List.length_cons, List.length_nil]
      omega

/-- splitOnChar finds no part boundary in a separator-free list. -/
theorem splitOnChar_of_all_ne (c : Char) (l : List Char) (h : l.all (fun a => a ≠ c) = true) :
    splitOnChar c l = [l] := by
  induction l with
  | nil => rfl
  | cons a l ih =>
    simp only [List.all_cons, Bool.and_eq_true, decide_eq_true_iff] at h
    simp only [splitOnChar, if_neg h.1]
    rw [ih (by simpa using h.2)]

/-- splitOnChar splits at the first separator after a separator-free prefix. -/
theorem splitOnChar_append (c : Char) (l1 l2 : List Char)
    (h : l1.all (fun a => a ≠ c) = true) :
    splitOnChar c (l1 ++ c :: l2) = l1 :: splitOnChar c l2 := by
  induction l1 with
  | nil => simp [splitOnChar]
  | cons a l1 ih =>
    simp only [List.all_cons, Bool.and_eq_true, decide_eq_true_iff] at h
    simp only [List.cons_append, splitOnChar, if_neg h.1, List.append_eq]
    rw [ih (by simpa using h.2)]

/-- Dropping a trailing block leaves any prefix intact when the suffix keeps
at least one character. -/
theorem dropTrailing_append (p : Char → Bool) (l1 l2 : List Char)
    (h : dropTrailing p l2 ≠ []) :
    dropTrailing p (l1 ++ l2) = l1 ++ dropTrailing p l2 := by
  unfold dropTrailing at *
  rw [List.reverse_append, List.dropWhile_append]
  have h2 : ¬ (l2.reverse.dropWhile p).isEmpty = true := by
    simp only [List.isEmpty_iff]
    intro hc
    rw [hc] at h
    simp at h
  rw [if_neg h2, List.reverse_append]
  simp

/-- A list none of whose characters satisfy p is untouched by dropTrailing. -/
theorem dropTrailing_of_all_not (p : Char → Bool) (l : List Char)
    (h : l.all (fun c => ! p c) = true) :
    dropTrailing p l = l := by
  unfold dropTrailing
  cases hr : l.reverse with
  | nil =>
    rw [List.dropWhile_nil, ← hr, List.reverse_reverse]
  | cons a t =>
    have ha : p a = false := by
      have hmem : a ∈ l := by
        rw [← List.mem_reverse, hr]
        exact List.mem_cons_self a t
      have := List.all_eq_true.mp h a hmem
      simpa using this
    rw [List.dropWhile_cons, if_neg (by simp [ha]), ← hr, List.reverse_reverse]

/-- dropTrailing yields the original list minus a suffix of p-characters. -/
theorem dropTrailing_decomp (p : Char → Bool) (l : List Char) :
    ∃ suf : List Char, l = dropTrailing p l ++ suf ∧ suf.all p = true := by
  refine ⟨(l.reverse.takeWhile p).reverse, ?_, ?_⟩
  · conv_lhs => rw [← List.reverse_reverse l, ← List.takeWhile_append_dropWhile (p := p) (l := l.reverse)]
    rw [List.reverse_append]
    rfl
  · rw [List.all_eq_true]
    intro x hx
    exact List.mem_takeWhile_imp (List.mem_reverse.mp hx)

/-- All-p suffix is a replicate when p is equality with one character. -/
theorem all_eq_replicate (ch : Char) (l : List Char) (h : l.all (fun c => c = ch) = true) :
    l = List.replicate l.length ch := by
  rw [List.eq_replicate_iff]
  refine ⟨rfl, ?_⟩
  intro b hb
  have := List.all_eq_true.mp h b hb
  simpa using this

/-- The value of an all-zero digit block. -/
theorem digitsToNat_replicate_zero (t : ℕ) : digitsToNat (List.replicate t '0') = 0 := by
  induction t with
  | zero => rfl
  | succ t ih =>
    have : List.replicate (t + 1) '0' = List.replicate t '0' ++ ['0'] := by
      rw [List.replicate_succ']
    rw [this, digitsToNat_append, ih]
    simp [digitsToNat, digitVal]

/-- Leading zeros do not change a digit block's value. -/
theorem digitsToNat_pad (m : ℕ) (l : List Char) :
    digitsToNat (List.replicate m '0' ++ l) = digitsToNat l := by
  rw [digitsToNat_append, digitsToNat_replicate_zero]
  simp

/-- Evaluation of the core parser on a one-part split. -/
theorem parseCore_of_split_single (l ip : List Char) (h : splitOnChar '.' l = [ip]) :
    parseDecimalCore? l =
      if (decide (ip ≠ []) && ip.all Char.isDigit) = true then
        some ((digitsToNat ip : ℕ) : ℚ)
      else none := by
  unfold parseDecimalCore?
  rw [h]

/-- Evaluation of the core parser on a two-part split. -/
theorem parseCore_of_split_pair (l ip fp : List Char) (h : splitOnChar '.' l = [ip, fp]) :
    parseDecimalCore? l =
      if (decide (ip ++ fp ≠ []) && ip.all Char.isDigit && fp.all Char.isDigit) = true then
        some ((digitsToNat ip : ℚ) + (digitsToNat fp : ℚ) / 10 ^ fp.length)
      else none := by
  unfold parseDecimalCore?
  rw [h]

/-- Parsing the rendered digits of a natural number. -/
theorem parseCore_natToDigits (n : ℕ) :
    parseDecimalCore? (natToDigits n) = some (n : ℚ) := by
  have hall := natToDigits_all_digit n
  have hnodot : (natToDigits n).all (fun a => a ≠ '.') = true := by
    rw [List.all_eq_true] at hall ⊢
    intro x hx
    simpa using ne_dot_of_isDigit (hall x hx)
  rw [parseCore_of_split_single _ _ (splitOnChar_of_all_ne '.' _ hnodot)]
  rw [if_pos (by simp [natToDigits_ne_nil n, hall]), digitsToNat_natToDigits]

/-- The sign dispatcher of pyParseDecimal on a leading minus. -/
theorem pyParse_minus (rest : List Char) :
    pyParseDecimal? ('-' :: rest).asString = (parseDecimalCore? rest).map (fun q => -q) := by
  show (if ('-' : Char) = '-' then (parseDecimalCore? rest).map (fun q => -q)
        else if ('-' : Char) = '+' then parseDecimalCore? rest
        else parseDecimalCore? ('-' :: rest)) = (parseDecimalCore? rest).map (fun q => -q)
  rw [if_pos rfl]

/-- The sign dispatcher of pyParseDecimal on a leading digit. -/
theorem pyParse_digit (c : Char) (rest : List Char) (h : c.isDigit = true) :
    pyParseDecimal? (c :: rest).asString = parseDecimalCore? (c :: rest) := by
  show (if c = '-' then (parseDecimalCore? rest).map (fun q => -q)
        else if c = '+' then parseDecimalCore? rest
        else parseDecimalCore? (c :: rest)) = parseDecimalCore? (c :: rest)
  rw [if_neg (ne_minus_of_isDigit h), if_neg (ne_plus_of_isDigit h)]

/-- The head of a digit rendering exists and is a digit. -/
theorem natToDigits_head (n : ℕ) :
    ∃ c rest, natToDigits n = c :: rest ∧ c.isDigit = true := by
  obtain ⟨c, rest, hc⟩ : ∃ c rest, natToDigits n = c :: rest := by
    cases h : natToDigits n with
    | nil => exact absurd h (natToDigits_ne_nil _)
    | cons c rest => exact ⟨c, rest, rfl⟩
  refine ⟨c, rest, hc, ?_⟩
  have := natToDigits_all_digit n
  rw [hc] at this
  simp only [List.all_cons, Bool.and_eq_true] at this
  exact this.1

/-- Parsing str(z) recovers the integer z. -/
theorem pyParse_intToDigits (z : ℤ) :
    pyParseDecimal? (intToDigits z).asString = some (z : ℚ) := by
  by_cases hz : z < 0
  · rw [show intToDigits z = '-' :: natToDigits z.natAbs from by
      unfold intToDigits; rw [if_pos hz]]
    rw [pyParse_minus, parseCore_natToDigits]
    show some (-(z.natAbs : ℚ)) = some (z : ℚ)
    congr 1
    have h2 : ((z.natAbs : ℕ) : ℚ) = ((-z : ℤ) : ℚ) := by
      rw [show ((z.natAbs : ℕ) : ℚ) = ((z.natAbs : ℤ) : ℚ) from (Int.cast_natCast z.natAbs).symm]
      exact congrArg _ (show ((z.natAbs : ℤ)) = -z by omega)
    rw [h2]
    push_cast
    ring
  · rw [show intToDigits z = natToDigits z.natAbs from by
      unfold intToDigits; rw [if_neg hz]]
    obtain ⟨c, rest, hc, hcd⟩ := natToDigits_head z.natAbs
    rw [hc, pyParse_digit c rest hcd, ← hc, parseCore_natToDigits]
    congr 1
    rw [show ((z.natAbs : ℕ) : ℚ) = ((z.natAbs : ℤ) : ℚ) from (Int.cast_natCast z.natAbs).symm]
    exact congrArg _ (show ((z.natAbs : ℤ)) = z by omega)

/-- The zero-padded fractional digit block of a nonzero fq < 10^10: stripping
its trailing zeros leaves a nonempty all-digit list sf with padded = sf ++
zeros, sf.length + zeros = 10, and value sf * 10^zeros = fq. -/
theorem sf_spec_gen (padded : List Char) (hall : padded.all Char.isDigit = true)
    (hlen : padded.length = 10) (hval : digitsToNat padded ≠ 0) :
    ∃ t : ℕ,
      padded = dropTrailing (fun c => c = '0') padded ++ List.replicate t '0' ∧
      dropTrailing (fun c => c = '0') padded ≠ [] ∧
      (dropTrailing (fun c => c = '0') padded).all Char.isDigit = true ∧
      (dropTrailing (fun c => c = '0') padded).length + t = 10 ∧
      digitsToNat (dropTrailing (fun c => c = '0') padded) * 10 ^ t =
        digitsToNat padded := by
  obtain ⟨suf, hdec, hsufall⟩ := dropTrailing_decomp (fun c => c = '0') padded
  have hsufrep : suf = List.replicate suf.length '0' := all_eq_replicate '0' suf hsufall
  revert hdec
  generalize dropTrailing (fun c => c = '0') padded = sf
  intro hdec
  subst hdec
  refine ⟨suf.length, by rw [← hsufrep], ?_, ?_, ?_, ?_⟩
  · intro hc
    subst hc
    rw [List.nil_append, hsufrep, digitsToNat_replicate_zero] at hval
    exact hval rfl
  · rw [List.all_append, Bool.and_eq_true_iff] at hall
    exact hall.1
  · rw [List.length_append] at hlen
    exact hlen
  · conv_rhs => rw [digitsToNat_append]
    conv_rhs => rw [hsufrep, digitsToNat_replicate_zero, List.length_replicate]
    omega

/-- Instance of sf_spec_gen for the padded fractional block of fq. -/
theorem sf_spec (fq : ℕ) (hfq : fq ≠ 0) (hlt : fq < 10 ^ 10) :
    ∃ t : ℕ,
      List.replicate (10 - (natToDigits fq).length) '0' ++ natToDigits fq =
        dropTrailing (fun c => c = '0')
          (List.replicate (10 - (natToDigits fq).length) '0' ++ natToDigits fq) ++
          List.replicate t '0' ∧
      dropTrailing (fun c => c = '0')
          (List.replicate (10 - (natToDigits fq).length) '0' ++ natToDigits fq) ≠ [] ∧
      (dropTrailing (fun c => c = '0')
          (List.replicate (10 - (natToDigits fq).length) '0' ++ natToDigits fq)).all
        Char.isDigit = true ∧
      (dropTrailing (fun c => c = '0')
          (List.replicate (10 - (natToDigits fq).length) '0' ++ natToDigits fq)).length + t = 10 ∧
      digitsToNat
          (dropTrailing (fun c => c = '0')
            (List.replicate (10 - (natToDigits fq).length) '0' ++ natToDigits fq)) * 10 ^ t =
        fq := by
  have hlen10 : (natToDigits fq).length ≤ 10 := natToDigits_length_le fq 10 (by omega) hlt
  have hpadval : digitsToNat (List.replicate (10 - (natToDigits fq).length) '0' ++
      natToDigits fq) = fq := by
    rw [digitsToNat_pad, digitsToNat_natToDigits]
  have hpadall : (List.replicate (10 - (natToDigits fq).length) '0' ++
      natToDigits fq).all Char.isDigit = true := by
    rw [List.all_append]
    refine Bool.and_eq_true_iff.mpr ⟨?_, natToDigits_all_digit fq⟩
    rw [List.all_eq_true]
    intro x hx
    rw [List.eq_of_mem_replicate hx]
    decide
  have hpadlen : (List.replicate (10 - (natToDigits fq).length) '0' ++
      natToDigits fq).length = 10 := by
    rw [List.length_append, List.length_replicate]
    omega
  obtain ⟨t, h1, h2, h3, h4, h5⟩ :=
    sf_spec_gen _ hpadall hpadlen (by rw [hpadval]; exact hfq)
  exact ⟨t, h1, h2, h3, h4, by rw [h5, hpadval]⟩

/-- Stripping trailing zeros then a trailing dot from a fixed-point rendering
with a nonzero fraction removes exactly the fraction's trailing zeros and
keeps the dot. -/
theorem stripped_render_gen (pre : List Char) (fq : ℕ) (hfq : fq ≠ 0) (hlt : fq < 10 ^ 10) :
    dropTrailing (fun c => c = '.') (dropTrailing (fun c => c = '0')
        ((pre ++ ['.']) ++ (List.replicate (10 - (natToDigits fq).length) '0' ++ natToDigits fq))) =
      (pre ++ ['.']) ++ dropTrailing (fun c => c = '0')
        (List.replicate (10 - (natToDigits fq).length) '0' ++ natToDigits fq) := by
  obtain ⟨t, _, hne, hall, _, _⟩ := sf_spec fq hfq hlt
  rw [dropTrailing_append _ _ _ hne]
  have hsfdot : (dropTrailing (fun c => c = '0')
      (List.replicate (10 - (natToDigits fq).length) '0' ++ natToDigits fq)).all
      (fun c => ! (c = '.' : Bool)) = true := by
    rw [List.all_eq_true] at hall ⊢
    intro x hx
    simpa using ne_dot_of_isDigit (hall x hx)
  have hkeep : dropTrailing (fun c => c = '.')
      (dropTrailing (fun c => c = '0')
        (List.replicate (10 - (natToDigits fq).length) '0' ++ natToDigits fq)) =
      dropTrailing (fun c => c = '0')
        (List.replicate (10 - (natToDigits fq).length) '0' ++ natToDigits fq) :=
    dropTrailing_of_all_not _ _ hsfdot
  rw [dropTrailing_append _ _ _ (by rw [hkeep]; exact hne), hkeep]

/-- Parsing an integer part followed by a dot and the stripped fractional
block of fq yields ipn + fq * 10^-10. -/
theorem parseCore_frac (ipn fq : ℕ) (hfq : fq ≠ 0) (hlt : fq < 10 ^ 10) :
    parseDecimalCore? (natToDigits ipn ++ '.' :: dropTrailing (fun c => c = '0')
        (List.replicate (10 - (natToDigits fq).length) '0' ++ natToDigits fq)) =
      some ((ipn : ℚ) + (fq : ℚ) / 10 ^ 10) := by
  obtain ⟨t, _, hne, hall, hlen, hval⟩ := sf_spec fq hfq hlt
  set sf := dropTrailing (fun c => c = '0')
    (List.replicate (10 - (natToDigits fq).length) '0' ++ natToDigits fq) with hsfdef
  have hipall := natToDigits_all_digit ipn
  have hipnodot : (natToDigits ipn).all (fun a => a ≠ '.') = true := by
    rw [List.all_eq_true] at hipall ⊢
    intro x hx
    simpa using ne_dot_of_isDigit (hipall x hx)
  have hsfnodot : sf.all (fun a => a ≠ '.') = true := by
    rw [List.all_eq_true] at hall ⊢
    intro x hx
    simpa using ne_dot_of_isDigit (hall x hx)
  have hsplit : splitOnChar '.' (natToDigits ipn ++ '.' :: sf) =
      [natToDigits ipn, sf] := by
    rw [splitOnChar_append '.' _ _ hipnodot, splitOnChar_of_all_ne '.' sf hsfnodot]
  rw [parseCore_of_split_pair _ _ _ hsplit]
  rw [if_pos (by simp [natToDigits_ne_nil ipn, hipall, hall])]
  congr 1
  rw [digitsToNat_natToDigits]
  congr 1
  have hq : ((fq : ℕ) : ℚ) = (digitsToNat sf : ℚ) * 10 ^ t := by
    exact_mod_cast hval.symm
  rw [hq, show ((10 : ℚ)) ^ 10 = 10 ^ sf.length * 10 ^ t from by
    rw [← pow_add, hlen]]
  rw [mul_div_mul_right]
  exact pow_ne_zero t (by norm_num)

/-- C4 (amended): on every integer multiple of TIER_INCREMENT = 10^-10 --
the only decimals this loader ever formats -- parsing the formatted string
recovers the value exactly. -/
theorem format_roundtrip_on_increments (q : ℚ) (h : isMulIncB q = true) :
    pyParseDecimal? (format_decimal q) = some q := by
  by_cases hden : q.den = 1
  · rw [show format_decimal q = (intToDigits q.num).asString from by
      unfold format_decimal; rw [if_pos hden]]
    rw [pyParse_intToDigits]
    rw [(Rat.den_eq_one_iff q).mp hden]
  · obtain ⟨k, hk⟩ := (isMulIncB_iff q).mp h
    have h10 : q * 10 ^ 10 = (k : ℚ) := by rw [hk]; field_simp
    have hrnd : roundHalfEven (q * 10 ^ 10) = k := by rw [h10, roundHalfEven_intCast]
    have hfq : k.natAbs % 10 ^ 10 ≠ 0 := by
      intro hc
      apply hden
      have hdvd1 : (10 ^ 10 : ℕ) ∣ k.natAbs := Nat.dvd_of_mod_eq_zero hc
      have hdvd : ((10 : ℤ) ^ 10) ∣ k := by
        have h2 : ((10 ^ 10 : ℕ) : ℤ) ∣ ((k.natAbs : ℕ) : ℤ) := Int.natCast_dvd_natCast.mpr hdvd1
        have h3 : ((10 ^ 10 : ℕ) : ℤ) ∣ k := Int.dvd_natAbs.mp h2
        exact_mod_cast h3
      obtain ⟨m, hm⟩ := hdvd
      have hqm : q = ((m : ℤ) : ℚ) := by
        rw [hk, hm]
        push_cast
        field_simp
        ring_nf
      rw [hqm, Rat.den_intCast]
    have hlt : k.natAbs % 10 ^ 10 < 10 ^ 10 := Nat.mod_lt _ (by norm_num)
    have hfd : format_decimal q = (if (dropTrailing (fun c => c = '.')
          (dropTrailing (fun c => c = '0') (renderScaled10 (roundHalfEven (q * 10 ^ 10))))) = []
        then "0"
        else (dropTrailing (fun c => c = '.')
          (dropTrailing (fun c => c = '0')
            (renderScaled10 (roundHalfEven (q * 10 ^ 10))))).asString) := by
      unfold format_decimal
      rw [if_neg hden]
    rw [hfd, hrnd]
    have hsplitn : ((k.natAbs : ℕ) : ℚ) =
        10 ^ 10 * ((k.natAbs / 10 ^ 10 : ℕ) : ℚ) + ((k.natAbs % 10 ^ 10 : ℕ) : ℚ) := by
      exact_mod_cast (Nat.div_add_mod k.natAbs (10 ^ 10)).symm
    rcases lt_or_le k 0 with hneg | hpos
    · have hrender : renderScaled10 k = (('-' :: natToDigits (k.natAbs / 10 ^ 10)) ++ ['.']) ++
          (List.replicate (10 - (natToDigits (k.natAbs % 10 ^ 10)).length) '0' ++
            natToDigits (k.natAbs % 10 ^ 10)) := by
        show (if k < 0 then ['-'] else []) ++ natToDigits (k.natAbs / 10 ^ 10) ++
            '.' :: (List.replicate (10 - (natToDigits (k.natAbs % 10 ^ 10)).length) '0' ++
              natToDigits (k.natAbs % 10 ^ 10)) = _
        rw [if_pos hneg]
        simp
      rw [hrender, stripped_render_gen _ _ hfq hlt]
      rw [if_neg (by simp)]
      rw [show (('-' :: natToDigits (k.natAbs / 10 ^ 10)) ++ ['.']) ++
          dropTrailing (fun c => c = '0')
            (List.replicate (10 - (natToDigits (k.natAbs % 10 ^ 10)).length) '0' ++
              natToDigits (k.natAbs % 10 ^ 10)) =
          '-' :: (natToDigits (k.natAbs / 10 ^ 10) ++ '.' :: dropTrailing (fun c => c = '0')
            (List.replicate (10 - (natToDigits (k.natAbs % 10 ^ 10)).length) '0' ++
              natToDigits (k.natAbs % 10 ^ 10))) from by simp]
      rw [pyParse_minus, parseCore_frac _ _ hfq hlt]
      show some (-(((k.natAbs / 10 ^ 10 : ℕ) : ℚ) + ((k.natAbs % 10 ^ 10 : ℕ) : ℚ) / 10 ^ 10)) =
        some q
      congr 1
      have hnq : ((k.natAbs : ℕ) : ℚ) = -(k : ℚ) := by
        rw [show ((k.natAbs : ℕ) : ℚ) = ((k.natAbs : ℤ) : ℚ) from (Int.cast_natCast k.natAbs).symm]
        rw [show ((k.natAbs : ℤ)) = -k by omega]
        push_cast
        ring
      have hcomb := hsplitn.symm.trans hnq
      rw [hk]
      field_simp
      linarith [hcomb]
    · have hrender : renderScaled10 k = (natToDigits (k.natAbs / 10 ^ 10) ++ ['.']) ++
          (List.replicate (10 - (natToDigits (k.natAbs % 10 ^ 10)).length) '0' ++
            natToDigits (k.natAbs % 10 ^ 10)) := by
        show (if k < 0 then ['-'] else []) ++ natToDigits (k.natAbs / 10 ^ 10) ++
            '.' :: (List.replicate (10 - (natToDigits (k.natAbs % 10 ^ 10)).length) '0' ++
              natToDigits (k.natAbs % 10 ^ 10)) = _
        rw [if_neg (not_lt.mpr hpos)]
        simp
      rw [hrender, stripped_render_gen _ _ hfq hlt]
      rw [if_neg (by simp)]
      obtain ⟨c, rest, hc, hcd⟩ := natToDigits_head (k.natAbs / 10 ^ 10)
      rw [show (natToDigits (k.natAbs / 10 ^ 10) ++ ['.']) ++
          dropTrailing (fun c => c = '0')
            (List.replicate (10 - (natToDigits (k.natAbs % 10 ^ 10)).length) '0' ++
              natToDigits (k.natAbs % 10 ^ 10)) =
          c :: (rest ++ '.' :: dropTrailing (fun c => c = '0')
            (List.replicate (10 - (natToDigits (k.natAbs % 10 ^ 10)).length) '0' ++
              natToDigits (k.natAbs % 10 ^ 10))) from by rw [hc]; simp]
      rw [pyParse_digit c _ hcd]
      rw [show c :: (rest ++ '.' :: dropTrailing (fun c => c = '0')
            (List.replicate (10 - (natToDigits (k.natAbs % 10 ^ 10)).length) '0' ++
              natToDigits (k.natAbs % 10 ^ 10))) =
          natToDigits (k.natAbs / 10 ^ 10) ++ '.' :: dropTrailing (fun c => c = '0')
            (List.replicate (10 - (natToDigits (k.natAbs % 10 ^ 10)).length) '0' ++
              natToDigits (k.natAbs % 10 ^ 10)) from by rw [hc]; simp]
      rw [parseCore_frac _ _ hfq hlt]
      congr 1
      have hnq : ((k.natAbs : ℕ) : ℚ) = (k : ℚ) := by
        rw [show ((k.natAbs : ℕ) : ℚ) = ((k.natAbs : ℤ) : ℚ) from (Int.cast_natCast k.natAbs).symm]
        rw [show ((k.natAbs : ℤ)) = k by omega]
      have hcomb := hsplitn.symm.trans hnq
      rw [hk]
      field_simp
      linarith [hcomb]

/-- C4 counterexample: half of TIER_INCREMENT formats to "0" (banker's
rounding of 0.5 down to 0 and zero stripping), so parsing the formatted
string yields 0, not the original nonzero value. -/
theorem roundtrip_fails_below_increment :
    pyParseDecimal? (format_decimal (1 / 20000000000 : ℚ)) = some 0 ∧
    (1 / 20000000000 : ℚ) ≠ 0 := by
  constructor
  · have h1 : ((1 / 20000000000 : ℚ)).den ≠ 1 := by
      intro hc
      have h2 := (Rat.den_eq_one_iff _).mp hc
      have h3 : (((1 / 20000000000 : ℚ).num : ℚ)) * 20000000000 = 1 := by
        rw [h2]; norm_num
      have h4 : ((20000000000 * (1 / 20000000000 : ℚ).num : ℤ) : ℚ) = ((1 : ℤ) : ℚ) := by
        push_cast
        linarith
      have h5 : (20000000000 * (1 / 20000000000 : ℚ).num : ℤ) = 1 := by exact_mod_cast h4
      omega
    have h2 : roundHalfEven ((1 / 20000000000 : ℚ) * 10 ^ 10) = 0 := by
      have hm : (1 / 20000000000 : ℚ) * 10 ^ 10 = 1 / 2 := by norm_num
      rw [hm]
      unfold roundHalfEven
      rw [show ⌊(1 / 2 : ℚ)⌋ = 0 from by norm_num]
      norm_num
    have h3 : format_decimal (1 / 20000000000 : ℚ) = "0" := by
      unfold format_decimal
      rw [if_neg h1, h2]
      decide
    rw [h3]
    decide
  · norm_num

/-- Witness: the round-trip theorem applied to 1.5, a multiple of 10^-10. -/
theorem format_roundtrip_on_increments_witness :
    isMulIncB (3 / 2 : ℚ) = true ∧
    pyParseDecimal? (format_decimal (3 / 2 : ℚ)) = some (3 / 2 : ℚ) :=
  ⟨(isMulIncB_iff _).mpr ⟨15000000000, by norm_num⟩,
   format_roundtrip_on_increments _ ((isMulIncB_iff _).mpr ⟨15000000000, by norm_num⟩)⟩

end ContractLoader
